import Mathlib

/-
Verification of the gene-annotation core of `rust-gene-annotation`.

Shallow embedding of `src/annotate.rs` (with its near-duplicate `src/lib.rs`)
and the data types of `src/loctogene.rs`.  The SQL-backed store queries
(`get_genes_within_promoter`, `in_exon`, `get_closest_genes`) are external
collaborators: they are modelled as parameters carrying the rows they return
(`rows`, `exonq`, `closest`), and, for the error-propagation analysis, as
`Except`-valued parameters (`annotateE`).

Machine integers: genomic coordinates are Rust `u32`, distances `i32`.
They are modelled as `Nat`/`Int` with explicit `% 2^32` wrap-around
(`sub32`, `add32`, `wrap32`, `u32ToI32`) where overflow matters, matching
release-mode wrapping semantics; `checkedSub` models the debug-mode
subtraction whose underflow branch panics.

`HashMap` accumulators are modelled as association lists with the same
insert/upsert semantics; the `BTreeMap<i32, BTreeSet<&str>>` used to order
the output (annotate.rs lines 140-163) iterates its keys in ascending order
and each `BTreeSet` in ascending lexicographic order, i.e. it emits the
unique sequence of `(abs_d, gene_id)` pairs sorted by the lexicographic
order `pairLe`; this is embedded as `List.insertionSort pairLe`, whose
output is provably the unique `pairLe`-sorted permutation.
-/

set_option maxHeartbeats 1000000

namespace RustGeneAnnotation

/-- The `u32` modulus, 2^32. -/
def u32Mod : Nat := 4294967296

/-- Wrapping `u32` subtraction (release-mode semantics of `a - b` on `u32`). -/
def sub32 (a b : Nat) : Nat := (a + (u32Mod - b % u32Mod)) % u32Mod

/-- Wrapping `u32` addition. -/
def add32 (a b : Nat) : Nat := (a + b) % u32Mod

/-- Checked `u32` subtraction: `none` is the underflow (debug-mode panic) branch. -/
def checkedSub (a b : Nat) : Option Nat := if b ≤ a then some (a - b) else none

/-- Reinterpret a `u32` value as `i32` (the Rust `as i32` cast). -/
def u32ToI32 (n : Nat) : Int :=
  if n % u32Mod < 2147483648 then ((n % u32Mod : Nat) : Int)
  else ((n % u32Mod : Nat) : Int) - 4294967296

/-- Wrap an integer into the `i32` range (release-mode `i32` arithmetic). -/
def wrap32 (x : Int) : Int := (x + 2147483648) % 4294967296 - 2147483648

/-- Release-mode `i32::abs`: the mathematical absolute value wrapped back into
the `i32` range. It agrees with the true absolute value everywhere except at
`i32::MIN`, where `(-2147483648_i32).abs()` wraps to `-2147483648` (debug mode
panics there instead). -/
def i32Abs (d : Int) : Int := wrap32 |d|

/-- Output sentinel, annotate.rs line 11. -/
def NA : String := "n/a"

/-- Label constant, annotate.rs line 12. -/
def PROMOTER : String := "promoter"

/-- Label constant, annotate.rs line 13. -/
def EXONIC : String := "exonic"

/-- Label constant, annotate.rs line 14. -/
def INTRONIC : String := "intronic"

/-- Label constant, annotate.rs line 15. -/
def INTERGENIC : String := "intergenic"

/-- A genomic query interval. Modelled from the spec: `Location` lives in the
external `dna` crate (not under src/); the spec gives chromosome, start, end
with `mid = (start + end) / 2`, floor division. `end` is a Lean keyword, so
the field is named `end_`. -/
structure Location where
  chr : String
  start : Nat
  end_ : Nat
deriving DecidableEq, Repr

/-- Modelled from the spec: midpoint of a location, `(start + end) / 2` rounded down. -/
def Location.mid (l : Location) : Nat := (l.start + l.end_) / 2

/-- loctogene.rs `TSSRegion`: the asymmetric promoter window configuration. -/
structure TSSRegion where
  offset_5p : Nat
  offset_3p : Nat
deriving DecidableEq, Repr

/-- loctogene.rs `TSSRegion::default()`: 2000 bp upstream, 1000 bp downstream. -/
def tssRegionDefault : TSSRegion := ⟨2000, 1000⟩

/-- loctogene.rs `GenomicFeature` (the row shape returned by every query). -/
structure GenomicFeature where
  id : Nat
  chr : String
  start : Nat
  end_ : Nat
  strand : String
  gene_id : String
  gene_symbol : String
  dist : Int
deriving DecidableEq, Repr

/-- loctogene.rs `Strand` enum. -/
inductive Strand where
  | Plus
  | Neg
deriving DecidableEq, Repr

/-- loctogene.rs `impl From<&str> for Strand` (lines 45-52): both the `"-"` arm
and the catch-all arm return `Strand::Plus`. -/
def strandFromStr (s : String) : Strand :=
  match s with
  | "-" => Strand.Plus
  | _ => Strand.Plus

/-- annotate.rs `GeneProm`: the per-gene accumulator. -/
structure GeneProm where
  is_promoter : Bool
  is_intronic : Bool
  is_exon : Bool
  abs_d : Int
  d : Int
deriving DecidableEq, Repr

/-- The `is_promoter` computation of the annotate loop (annotate.rs lines 99-104),
with the `u32` subtractions/additions taken wrapping. The `&&` chains
short-circuit on the strand comparison exactly as in the source. -/
def rowIsPromoter (tss : TSSRegion) (mid : Nat) (g : GenomicFeature) : Bool :=
  (g.strand == "+" && decide (sub32 g.start tss.offset_5p ≤ mid)
      && decide (mid ≤ add32 g.start tss.offset_3p))
    || (g.strand == "-" && decide (sub32 g.end_ tss.offset_3p ≤ mid)
      && decide (mid ≤ add32 g.end_ tss.offset_5p))

/-- The `is_intronic` check of the annotate loop (annotate.rs line 106). -/
def rowIsIntronic (mid : Nat) (g : GenomicFeature) : Bool :=
  decide (g.start ≤ mid) && decide (mid ≤ g.end_)

/-- The signed TSS distance `d` of the annotate loop (annotate.rs lines 108-112):
`(start as i32) - (mid as i32)` on `+` strand, else `(end as i32) - (mid as i32)`. -/
def tssDist (mid : Nat) (g : GenomicFeature) : Int :=
  if g.strand == "+" then wrap32 (u32ToI32 g.start - u32ToI32 mid)
  else wrap32 (u32ToI32 g.end_ - u32ToI32 mid)

/-- The `or_insert` arm of the accumulator update (annotate.rs lines 131-137);
`abs_d: d.abs()` is the release-mode wrapping `i32` absolute value. -/
def initProm (ip ii ie : Bool) (d : Int) : GeneProm := ⟨ip, ii, ie, i32Abs d, d⟩

/-- The `and_modify` arm of the accumulator update (annotate.rs lines 119-130):
OR the three flags, replace `d`/`abs_d` only when the new `d.abs()` (the
wrapping `i32` absolute value, signed-compared as the source does) is strictly
smaller than the stored one. -/
def updateProm (ip ii ie : Bool) (d : Int) (v : GeneProm) : GeneProm :=
  let v1 : GeneProm := ⟨v.is_promoter || ip, v.is_intronic || ii, v.is_exon || ie, v.abs_d, v.d⟩
  if i32Abs d < v1.abs_d then ⟨v1.is_promoter, v1.is_intronic, v1.is_exon, i32Abs d, d⟩ else v1

/-- The per-row data of one loop iteration, packaged as the `GeneProm` that
`or_insert` would store: flags from lines 97-106, `d` from lines 108-112. -/
def hitProm (tss : TSSRegion) (mid : Nat) (exons : List GenomicFeature)
    (g : GenomicFeature) : GeneProm :=
  initProm (rowIsPromoter tss mid g) (rowIsIntronic mid g)
    (decide (0 < exons.length)) (tssDist mid g)

/-- The `and_modify` update with the row data of hit `h` (which is an `initProm`, so its
fields are exactly the row's `is_promoter`/`is_intronic`/`is_exon`/`d`). -/
def mergeProm (h : GeneProm) (v : GeneProm) : GeneProm :=
  updateProm h.is_promoter h.is_intronic h.is_exon h.d v

/-- Association-list lookup, modelling `HashMap::get` on `promoter_map`. -/
def lookupP : List (String × GeneProm) → String → Option GeneProm
  | [], _ => none
  | (k, v) :: rest, id => if k = id then some v else lookupP rest id

/-- The upsert `promoter_map.entry(id).and_modify(..).or_insert(h)` (annotate.rs lines 117-137). -/
def upsertProm (m : List (String × GeneProm)) (id : String) (h : GeneProm) :
    List (String × GeneProm) :=
  match m with
  | [] => [(id, h)]
  | (k, v) :: rest =>
    if k = id then (k, mergeProm h v) :: rest else (k, v) :: upsertProm rest id h

/-- Association-list lookup, modelling `HashMap::get` on `id_map`. -/
def lookupS : List (String × String) → String → Option String
  | [], _ => none
  | (k, v) :: rest, id => if k = id then some v else lookupS rest id

/-- The insert `id_map.insert(id, symbol)` (annotate.rs line 91): overwrite on collision. -/
def upsertStr (m : List (String × String)) (id s : String) : List (String × String) :=
  match m with
  | [] => [(id, s)]
  | (k, v) :: rest =>
    if k = id then (k, s) :: rest else (k, v) :: upsertStr rest id s

/-- The two mutable maps built by the annotate loop (annotate.rs lines 79-80). -/
structure AnnState where
  id_map : List (String × String)
  promoter_map : List (String × GeneProm)
deriving DecidableEq, Repr

/-- One iteration of the annotate loop (annotate.rs lines 83-138) for row `g`,
given the rows `exons` returned by `in_exon(location, g.gene_id)`. -/
def stepRow (tss : TSSRegion) (mid : Nat) (exons : List GenomicFeature)
    (st : AnnState) (g : GenomicFeature) : AnnState :=
  ⟨upsertStr st.id_map g.gene_id g.gene_symbol,
   upsertProm st.promoter_map g.gene_id (hitProm tss mid exons g)⟩

/-- The whole annotate loop over the rows returned by
`get_genes_within_promoter`, with `exonq id` the rows returned by
`in_exon(location, id)`. -/
def annFold (tss : TSSRegion) (mid : Nat) (exonq : String → List GenomicFeature) :
    List GenomicFeature → AnnState → AnnState
  | [], st => st
  | g :: rest, st => annFold tss mid exonq rest (stepRow tss mid (exonq g.gene_id) st g)

/-- The iteration order of `BTreeMap<i32, BTreeSet<&str>>` keyed by `abs_d`
with id sets as values: ascending `abs_d`, ties in ascending lexicographic id
order. -/
abbrev pairLe (a b : Int × String) : Prop :=
  a.1 < b.1 ∨ (a.1 = b.1 ∧ a.2 ≤ b.2)

instance pairLeDecidable : DecidableRel pairLe :=
  fun _ _ => inferInstanceAs (Decidable (_ ∨ _))

instance pairLeTrans : IsTrans (Int × String) pairLe := ⟨by
  intro a b c hab hbc
  rcases hab with h1 | ⟨h1, h2⟩ <;> rcases hbc with h3 | ⟨h3, h4⟩
  · exact Or.inl (lt_trans h1 h3)
  · exact Or.inl (h3 ▸ h1)
  · exact Or.inl (h1 ▸ h3)
  · exact Or.inr ⟨h1.trans h3, le_trans h2 h4⟩⟩

instance pairLeTotal : IsTotal (Int × String) pairLe := ⟨by
  intro a b
  rcases lt_trichotomy a.1 b.1 with h | h | h
  · exact Or.inl (Or.inl h)
  · rcases le_total a.2 b.2 with h2 | h2
    · exact Or.inl (Or.inr ⟨h, h2⟩)
    · exact Or.inr (Or.inr ⟨h.symm, h2⟩)
  · exact Or.inr (Or.inl h)⟩

instance pairLeAntisymm : IsAntisymm (Int × String) pairLe := ⟨by
  intro a b hab hba
  rcases hab with h1 | ⟨h1, h2⟩ <;> rcases hba with h3 | ⟨h3, h4⟩
  · exact absurd h3 (lt_asymm h1)
  · exact absurd h1 (h3 ▸ lt_irrefl _)
  · exact absurd h3 (h1 ▸ lt_irrefl _)
  · exact Prod.ext h1 (le_antisymm h2 h4)⟩

/-- The `(abs_d, gene_id)` pairs inserted into `dist_map` (annotate.rs lines 141-154). -/
def distPairs (m : List (String × GeneProm)) : List (Int × String) :=
  m.map (fun p => (p.2.abs_d, p.1))

/-- The keys of the promoter map. -/
def keysP (m : List (String × GeneProm)) : List String := m.map Prod.fst

/-- The `and_modify`/`or_insert` update folded over the hit sequence of one
gene id, acting on an optional map entry. -/
def foldHits (hs : List GeneProm) (acc : Option GeneProm) : Option GeneProm :=
  hs.foldl (fun a h => some (match a with | none => h | some v => mergeProm h v)) acc

/-- The `and_modify` update folded over the later hits of a gene, from its first hit. -/
def mergeList (v : GeneProm) (hs : List GeneProm) : GeneProm :=
  hs.foldl (fun v h => mergeProm h v) v

/-- The per-row accumulator data (`hitProm`) of every row carrying gene `id`,
in row order. -/
def rowHits (tss : TSSRegion) (mid : Nat) (exonq : String → List GenomicFeature)
    (rows : List GenomicFeature) (id : String) : List GeneProm :=
  (rows.filter (fun g => g.gene_id == id)).map (fun g => hitProm tss mid (exonq g.gene_id) g)

/-- Left fold of `min` over the wrapped absolute distances of a hit list. -/
def foldMinAbs (a : Int) (hs : List GeneProm) : Int :=
  hs.foldl (fun a h => min a (i32Abs h.d)) a

/-- Lookup `promoter_map[id]` with the accumulator unwrapped (the code indexes only
ids known to be present, so the default is never exercised on reachable ids). -/
def promOf (m : List (String × GeneProm)) (id : String) : GeneProm :=
  (lookupP m id).getD ⟨false, false, false, 0, 0⟩

/-- Lookup `id_map[id]` unwrapped. -/
def symOf (m : List (String × String)) (id : String) : String :=
  (lookupS m id).getD ""

/-- annotate.rs `make_label` (lines 330-346): push `"promoter"` if
`is_promoter`; then push `"exonic"` if `is_exon`, else `"intronic"` if
`is_intronic`; comma-join. -/
def make_label (is_promoter is_exon is_intronic : Bool) : String :=
  String.intercalate ","
    ((if is_promoter then [PROMOTER] else [])
      ++ (if is_exon then [EXONIC] else if is_intronic then [INTRONIC] else []))

/-- The label `make_label` applied to an accumulator's flags (annotate.rs lines 170-176). -/
def labelOf (p : GeneProm) : String := make_label p.is_promoter p.is_exon p.is_intronic

/-- The four parallel "within" output lists of `GeneAnnotation`
(they are `join(";")`-ed at the end; kept as lists here, joined in
`mkAnnotRecord`). -/
structure Within where
  ids : List String
  symbols : List String
  labels : List String
  dists : List String
deriving DecidableEq, Repr

/-- annotate.rs lines 140-192: order the ids by `(abs_d, id)` (the
`BTreeMap`/`BTreeSet` pass, embedded as the unique `pairLe`-sorted
permutation), build the three parallel lists by map lookups, then push the
`"n/a"` sentinel onto `ids`, `gene_symbols` and `tss_dists` (NOT onto
`prom_labels`) when no gene was found. -/
def withinFromState (st : AnnState) : Within :=
  let ids0 := (List.insertionSort pairLe (distPairs st.promoter_map)).map Prod.snd
  let symbols0 := ids0.map (symOf st.id_map)
  let labels := ids0.map (fun id => labelOf (promOf st.promoter_map id))
  let dists0 := ids0.map (fun id => toString (promOf st.promoter_map id).d)
  if ids0.length = 0 then ⟨[NA], [NA], labels, [NA]⟩
  else ⟨ids0, symbols0, labels, dists0⟩

/-- The state after the annotate loop, starting from the two empty maps. -/
def annotateState (tss : TSSRegion) (loc : Location) (rows : List GenomicFeature)
    (exonq : String → List GenomicFeature) : AnnState :=
  annFold tss loc.mid exonq rows ⟨[], []⟩

/-- The final `promoter_map` of an annotate call. -/
def withinMap (tss : TSSRegion) (loc : Location) (rows : List GenomicFeature)
    (exonq : String → List GenomicFeature) : List (String × GeneProm) :=
  (annotateState tss loc rows exonq).promoter_map

/-- The sorted `(abs_d, gene_id)` sequence emitted by the `BTreeMap` pass. -/
def withinEntriesSorted (tss : TSSRegion) (loc : Location) (rows : List GenomicFeature)
    (exonq : String → List GenomicFeature) : List (Int × String) :=
  List.insertionSort pairLe (distPairs (withinMap tss loc rows exonq))

/-- The ordered `ids` list before the sentinel push (annotate.rs lines 157-163). -/
def withinIds (tss : TSSRegion) (loc : Location) (rows : List GenomicFeature)
    (exonq : String → List GenomicFeature) : List String :=
  (withinEntriesSorted tss loc rows exonq).map Prod.snd

/-- The signed distances backing `tss_dists` (before `to_string`), in output order. -/
def withinDVals (tss : TSSRegion) (loc : Location) (rows : List GenomicFeature)
    (exonq : String → List GenomicFeature) : List Int :=
  (withinIds tss loc rows exonq).map (fun id => (promOf (withinMap tss loc rows exonq) id).d)

/-- The "within" part of `Annotate::annotate`, as a function of the rows the
overlap query returned and of the exon-membership query results. -/
def annotateWithin (tss : TSSRegion) (loc : Location) (rows : List GenomicFeature)
    (exonq : String → List GenomicFeature) : Within :=
  withinFromState (annotateState tss loc rows exonq)

/-- Lower bound `s` of `classify_location` (annotate.rs lines 230-234):
`start - offset_5p` on `+` strand, else `start` unchanged. -/
def clLo (tss : TSSRegion) (f : GenomicFeature) : Nat :=
  if f.strand == "+" then sub32 f.start tss.offset_5p else f.start

/-- Upper bound `e` of `classify_location` (annotate.rs lines 236-240):
`end + offset_5p` on `-` strand, else `end` unchanged. -/
def clHi (tss : TSSRegion) (f : GenomicFeature) : Nat :=
  if f.strand == "-" then add32 f.end_ tss.offset_5p else f.end_

/-- annotate.rs `classify_location` (lines 227-264). `exonRes` is the result of
the `in_exon` query, whose error is swallowed (lines 253-257: `Err(_) => vec![]`). -/
def classify_location (tss : TSSRegion) (loc : Location) (f : GenomicFeature)
    (exonRes : Except String (List GenomicFeature)) : String :=
  let mid := loc.mid
  let s := clLo tss f
  let e := clHi tss f
  if loc.start > e ∨ loc.end_ < s then INTERGENIC
  else
    let ip := (f.strand == "+" && decide (s ≤ mid) && decide (mid ≤ add32 f.start tss.offset_3p))
      || (f.strand == "-" && decide (sub32 f.end_ tss.offset_3p ≤ mid) && decide (mid ≤ e))
    let exons := match exonRes with | .ok l => l | .error _ => []
    let ie := decide (0 < exons.length)
    let ii := decide (f.start ≤ mid ∧ mid ≤ f.end_)
    make_label ip ie ii

/-- annotate.rs `ClosestGene`. -/
structure ClosestGene where
  gene_id : String
  gene_symbol : String
  prom_label : String
  tss_dist : Int
deriving DecidableEq, Repr

/-- annotate.rs `GeneAnnotation` (the four lists are `join(";")`-ed strings). -/
structure GeneAnnotation where
  gene_ids : String
  gene_symbols : String
  prom_labels : String
  tss_dists : String
  closest_genes : List ClosestGene
deriving DecidableEq, Repr

/-- Assembly of the output record (annotate.rs lines 216-222). -/
def mkAnnotRecord (w : Within) (cl : List ClosestGene) : GeneAnnotation :=
  ⟨String.intercalate ";" w.ids, String.intercalate ";" w.symbols,
   String.intercalate ";" w.labels, String.intercalate ";" w.dists, cl⟩

/-- One entry of the closest-genes list (annotate.rs lines 201-214). -/
def closestGeneOf (tss : TSSRegion) (loc : Location)
    (exonRes : Except String (List GenomicFeature)) (f : GenomicFeature) : ClosestGene :=
  ⟨f.gene_id, f.gene_symbol, classify_location tss loc f exonRes, f.dist⟩

/-- The function `Annotate::annotate` as a pure function of the rows each store query
returned: `rows` from `get_genes_within_promoter`, `exonq` from `in_exon`,
`closest` from `get_closest_genes` (order preserved, annotate.rs lines 194-222). -/
def annotateP (tss : TSSRegion) (loc : Location) (rows : List GenomicFeature)
    (exonq : String → List GenomicFeature) (closest : List GenomicFeature) : GeneAnnotation :=
  mkAnnotRecord (annotateWithin tss loc rows exonq)
    (closest.map (fun f => closestGeneOf tss loc (.ok (exonq f.gene_id)) f))

/-- The annotate loop with fallible `in_exon` queries: the `?` on
annotate.rs line 95 aborts the loop on the first error. -/
def foldRowsE (tss : TSSRegion) (mid : Nat)
    (exonq : String → Except String (List GenomicFeature)) :
    List GenomicFeature → AnnState → Except String AnnState
  | [], st => .ok st
  | g :: rest, st =>
    match exonq g.gene_id with
    | .error e => .error e
    | .ok exons => foldRowsE tss mid exonq rest (stepRow tss mid exons st g)

/-- The function `Annotate::annotate` with fallible store queries (annotate.rs lines 59-225):
the overlap query (`?`, line 76), each in-loop `in_exon` (`?`, line 95) and the
closest-genes query (`?`, line 197) propagate errors; the `in_exon` inside
`classify_location` does not (its error becomes `vec![]`). -/
def annotateE (tss : TSSRegion) (loc : Location)
    (withinQ : Except String (List GenomicFeature))
    (exonq : String → Except String (List GenomicFeature))
    (closestQ : Except String (List GenomicFeature)) : Except String GeneAnnotation :=
  match withinQ with
  | .error e => .error e
  | .ok rows =>
    match foldRowsE tss loc.mid exonq rows ⟨[], []⟩ with
    | .error e => .error e
    | .ok st =>
      match closestQ with
      | .error e => .error e
      | .ok cl =>
        .ok (mkAnnotRecord (withinFromState st)
          (cl.map (fun f => closestGeneOf tss loc (exonq f.gene_id) f)))

/-- The `is_promoter` computation of the annotate loop under checked (debug)
`u32` subtraction: `none` means the subtraction's underflow branch is reached.
The `&&`/`||` short-circuiting of lines 99-104 means the `+` arm evaluates
`gene.start - offset_5p`, the `-` arm evaluates `gene.end - offset_3p`, and any
other strand string evaluates neither. -/
def is_promoter_checked (tss : TSSRegion) (mid : Nat) (g : GenomicFeature) : Option Bool :=
  if g.strand == "+" then
    match checkedSub g.start tss.offset_5p with
    | none => none
    | some lo => some (decide (lo ≤ mid) && decide (mid ≤ add32 g.start tss.offset_3p))
  else if g.strand == "-" then
    match checkedSub g.end_ tss.offset_3p with
    | none => none
    | some lo => some (decide (lo ≤ mid) && decide (mid ≤ add32 g.end_ tss.offset_5p))
  else some false

/-- Modelled from the spec: the upper bound of the promoter window of the data
model, `TSS + offset_3p` for `+` strand (TSS = start), `TSS + offset_5p` for
`-` strand (TSS = end). Used only to compare the spec's claimed
`classify_location` window against the code's. -/
def specPromHi (tss : TSSRegion) (f : GenomicFeature) : Nat :=
  if f.strand == "+" then f.start + tss.offset_3p else f.end_ + tss.offset_5p

/-- Modelled from the spec: the lower bound of the promoter window of the data
model, `TSS - offset_5p` for `+` strand, `TSS - offset_3p` for `-` strand
(truncated at 0; only used on inputs where the subtraction is exact). -/
def specPromLo (tss : TSSRegion) (f : GenomicFeature) : Nat :=
  if f.strand == "+" then f.start - tss.offset_5p else f.end_ - tss.offset_3p



theorem u32ToI32_eq {n : Nat} (h : n < 2147483648) : u32ToI32 n = (n : Int) := by
  have h2 : n % u32Mod = n := Nat.mod_eq_of_lt (by unfold u32Mod; omega)
  simp [u32ToI32, h2, h]

theorem wrap32_eq {x : Int} (h1 : -2147483648 ≤ x) (h2 : x < 2147483648) : wrap32 x = x := by
  unfold wrap32
  omega

theorem wrap32_range (x : Int) : -2147483648 ≤ wrap32 x ∧ wrap32 x < 2147483648 := by
  unfold wrap32
  constructor <;> omega

theorem i32Abs_eq_abs {d : Int} (h1 : -2147483648 ≤ d) (h2 : d < 2147483648)
    (h3 : d ≠ -2147483648) : i32Abs d = |d| := by
  have hlt : |d| < 2147483648 := abs_lt.mpr ⟨by omega, h2⟩
  exact wrap32_eq (le_trans (by norm_num) (abs_nonneg d)) hlt

theorem tssDist_eq_plus {g : GenomicFeature} {mid : Nat} (hstr : g.strand = "+")
    (hs : g.start < 2147483648) (hm : mid < 2147483648) :
    tssDist mid g = (g.start : Int) - (mid : Int) := by
  rw [tssDist, if_pos (by simp [hstr]), u32ToI32_eq hs, u32ToI32_eq hm]
  exact wrap32_eq (by omega) (by omega)

theorem tssDist_eq_nonplus {g : GenomicFeature} {mid : Nat} (hstr : g.strand ≠ "+")
    (he : g.end_ < 2147483648) (hm : mid < 2147483648) :
    tssDist mid g = (g.end_ : Int) - (mid : Int) := by
  rw [tssDist, if_neg (by simp [hstr]), u32ToI32_eq he, u32ToI32_eq hm]
  exact wrap32_eq (by omega) (by omega)

theorem tssDist_range (mid : Nat) (g : GenomicFeature) :
    -2147483648 ≤ tssDist mid g ∧ tssDist mid g < 2147483648 := by
  rw [tssDist]
  split <;> exact wrap32_range _

/-- C6: for every classified feature the signed TSS distance is
`start − mid` on `+` strand and `end − mid` on `-` strand (`mid` the query
midpoint), on all coordinates where the `i32` arithmetic of
annotate.rs lines 108-112 does not overflow. -/
theorem c6_signed_distance (g : GenomicFeature) (mid : Nat)
    (hs : g.start < 2147483648) (he : g.end_ < 2147483648) (hm : mid < 2147483648) :
    (g.strand = "+" → tssDist mid g = (g.start : Int) - (mid : Int))
    ∧ (g.strand = "-" → tssDist mid g = (g.end_ : Int) - (mid : Int)) := by
  constructor
  · intro h
    exact tssDist_eq_plus h hs hm
  · intro h
    exact tssDist_eq_nonplus (by simp [h]) he hm

/-- Witness for C6: a `+`-strand gene with `start = 1000` and a `-`-strand gene
with `end = 1000` both give signed distance `+100` against midpoint `900`. -/
theorem c6_signed_distance_witness :
    ((1000 : Nat) < 2147483648 ∧ (2000 : Nat) < 2147483648 ∧ (900 : Nat) < 2147483648)
    ∧ tssDist 900 ⟨1, "chr1", 1000, 2000, "+", "G1", "G1", 0⟩ = 100
    ∧ tssDist 900 ⟨2, "chr1", 100, 1000, "-", "G2", "G2", 0⟩ = 100 := by
  refine ⟨by norm_num, ?_, ?_⟩
  · rw [(c6_signed_distance ⟨1, "chr1", 1000, 2000, "+", "G1", "G1", 0⟩ 900
      (by norm_num) (by norm_num) (by norm_num)).1 rfl]
    norm_num
  · rw [(c6_signed_distance ⟨2, "chr1", 100, 1000, "-", "G2", "G2", 0⟩ 900
      (by norm_num) (by norm_num) (by norm_num)).2 rfl]
    norm_num

/-- C7: exhaustive behaviour of `make_label`: `"promoter"` iff `is_promoter`,
then `"exonic"` iff `is_exon`, else `"intronic"` iff `is_intronic`,
comma-joined in that order; `"exonic"` and `"intronic"` never co-occur; all
flags false give the empty string, which is distinct from `"intergenic"`. -/
theorem c7_make_label_cases :
    (∀ i : Bool, make_label true true i = "promoter,exonic")
    ∧ make_label true false true = "promoter,intronic"
    ∧ make_label true false false = "promoter"
    ∧ (∀ i : Bool, make_label false true i = "exonic")
    ∧ make_label false false true = "intronic"
    ∧ make_label false false false = ""
    ∧ (∀ p e i : Bool,
        make_label p e i ∈ ["", "promoter", "exonic", "intronic", "promoter,exonic", "promoter,intronic"])
    ∧ (∀ p e i : Bool, make_label p e i ≠ INTERGENIC)
    ∧ make_label false false false ≠ INTERGENIC := by
  decide

/-- C9 (amended): a feature whose strand is neither `"+"` nor `"-"` takes the
`-`-strand arm of the distance computation (`end − mid`), satisfies neither
promoter-window check (`is_promoter` is false), and in `classify_location`
gets `s = start` and `e = end` with no 5p extension on either side. -/
theorem c9_malformed_strand (tss : TSSRegion) (mid : Nat) (g : GenomicFeature)
    (h1 : g.strand ≠ "+") (h2 : g.strand ≠ "-") :
    tssDist mid g = wrap32 (u32ToI32 g.end_ - u32ToI32 mid)
    ∧ rowIsPromoter tss mid g = false
    ∧ clLo tss g = g.start
    ∧ clHi tss g = g.end_ := by
  have b1 : (g.strand == "+") = false := by simp [h1]
  have b2 : (g.strand == "-") = false := by simp [h2]
  refine ⟨?_, ?_, ?_, ?_⟩ <;> simp [tssDist, rowIsPromoter, clLo, clHi, b1, b2]

/-- Witness for C9 at a concrete malformed-strand feature (strand `"."`). -/
theorem c9_malformed_strand_witness :
    (("." : String) ≠ "+" ∧ ("." : String) ≠ "-")
    ∧ (tssDist 900 ⟨1, "chr1", 1000, 2000, ".", "G1", "G1", 0⟩
        = wrap32 (u32ToI32 2000 - u32ToI32 900)
      ∧ rowIsPromoter tssRegionDefault 900 ⟨1, "chr1", 1000, 2000, ".", "G1", "G1", 0⟩ = false
      ∧ clLo tssRegionDefault ⟨1, "chr1", 1000, 2000, ".", "G1", "G1", 0⟩ = 1000
      ∧ clHi tssRegionDefault ⟨1, "chr1", 1000, 2000, ".", "G1", "G1", 0⟩ = 2000) :=
  ⟨⟨by decide, by decide⟩,
    c9_malformed_strand tssRegionDefault 900 ⟨1, "chr1", 1000, 2000, ".", "G1", "G1", 0⟩
      (by decide) (by decide)⟩

/-- Counterexample for C9 as stated: a malformed strand (`"."`) is NOT treated
as `+`: the signed distance takes the `-` arm (`end − mid = 1100`, not
`start − mid = 100`), and the promoter check that holds for the same feature
with strand `"+"` fails for strand `"."` (even though `Strand::from` maps
both to `Plus`, `annotate` compares the raw strand string). -/
theorem c9_counterexample :
    strandFromStr "." = Strand.Plus
    ∧ tssDist 900 ⟨1, "chr1", 1000, 2000, ".", "G1", "G1", 0⟩ = 1100
    ∧ tssDist 900 ⟨1, "chr1", 1000, 2000, "+", "G1", "G1", 0⟩ = 100
    ∧ (1100 : Int) ≠ 100
    ∧ rowIsPromoter tssRegionDefault 3000 ⟨2, "chr1", 3000, 5000, ".", "G2", "G2", 0⟩ = false
    ∧ rowIsPromoter tssRegionDefault 3000 ⟨2, "chr1", 3000, 5000, "+", "G2", "G2", 0⟩ = true := by
  decide

/-- C10 (amended): the promoter-window subtraction is NOT total: under checked
(debug) `u32` semantics the annotate loop's `is_promoter` computation reaches
the subtraction's underflow branch exactly when a `+`-strand feature has
`start < offset_5p` or a `-`-strand feature has `end < offset_3p`. -/
theorem c10_underflow_iff (tss : TSSRegion) (mid : Nat) (g : GenomicFeature) :
    is_promoter_checked tss mid g = none
    ↔ ((g.strand = "+" ∧ g.start < tss.offset_5p)
      ∨ (g.strand = "-" ∧ g.end_ < tss.offset_3p)) := by
  by_cases hp : g.strand = "+"
  · have : ("+" : String) ≠ "-" := by decide
    simp only [is_promoter_checked, checkedSub, hp, beq_self_eq_true, if_true]
    by_cases hle : tss.offset_5p ≤ g.start
    · simp [hle, this]
    · simp [hle, this]
      omega
  · have b1 : (g.strand == "+") = false := by simp [hp]
    by_cases hn : g.strand = "-"
    · simp only [is_promoter_checked, checkedSub, b1, if_false, hn, beq_self_eq_true, if_true]
      have : ("-" : String) ≠ "+" := by decide
      by_cases hle : tss.offset_3p ≤ g.end_
      · simp [hle, this]
      · simp [hle, this]
        omega
    · have b2 : (g.strand == "-") = false := by simp [hn]
      simp [is_promoter_checked, b1, b2, hp, hn]

/-- Counterexample for C10 as stated: a `+`-strand gene near the chromosome
origin (`start = 1000 < offset_5p = 2000`) DOES reach the subtraction's
underflow branch. -/
theorem c10_counterexample :
    is_promoter_checked tssRegionDefault 1005 ⟨1, "chr1", 1000, 5000, "+", "G1", "G1", 0⟩ = none
    ∧ (1000 : Nat) < tssRegionDefault.offset_5p := by
  decide


theorem lookupP_upsertProm_self (m : List (String × GeneProm)) (id : String) (h : GeneProm) :
    lookupP (upsertProm m id h) id
      = some (match lookupP m id with
              | none => h
              | some v => mergeProm h v) := by
  induction m with
  | nil => simp [upsertProm, lookupP]
  | cons p rest ih =>
    obtain ⟨k, v⟩ := p
    by_cases hk : k = id
    · subst hk
      simp [upsertProm, lookupP]
    · simp [upsertProm, lookupP, hk, ih]

theorem lookupP_upsertProm_ne (m : List (String × GeneProm)) (id id' : String) (h : GeneProm)
    (hne : id' ≠ id) : lookupP (upsertProm m id h) id' = lookupP m id' := by
  induction m with
  | nil => simp [upsertProm, lookupP, Ne.symm hne]
  | cons p rest ih =>
    obtain ⟨k, v⟩ := p
    by_cases hk : k = id
    · subst hk
      simp [upsertProm, lookupP, Ne.symm hne]
    · by_cases hk2 : k = id'
      · simp [upsertProm, lookupP, hk, hk2, hne]
      · simp [upsertProm, lookupP, hk, hk2, ih]

theorem lookupS_upsertStr_self (m : List (String × String)) (id s : String) :
    lookupS (upsertStr m id s) id = some s := by
  induction m with
  | nil => simp [upsertStr, lookupS]
  | cons p rest ih =>
    obtain ⟨k, v⟩ := p
    by_cases hk : k = id
    · subst hk
      simp [upsertStr, lookupS]
    · simp [upsertStr, lookupS, hk, ih]

theorem lookupS_upsertStr_ne (m : List (String × String)) (id id' s : String)
    (hne : id' ≠ id) : lookupS (upsertStr m id s) id' = lookupS m id' := by
  induction m with
  | nil => simp [upsertStr, lookupS, Ne.symm hne]
  | cons p rest ih =>
    obtain ⟨k, v⟩ := p
    by_cases hk : k = id
    · subst hk
      simp [upsertStr, lookupS, Ne.symm hne]
    · by_cases hk2 : k = id'
      · simp [upsertStr, lookupS, hk, hk2, hne]
      · simp [upsertStr, lookupS, hk, hk2, ih]

theorem foldHits_cons (h : GeneProm) (hs : List GeneProm) (acc : Option GeneProm) :
    foldHits (h :: hs) acc
      = foldHits hs (some (match acc with | none => h | some v => mergeProm h v)) := rfl

theorem mergeList_cons (v h : GeneProm) (hs : List GeneProm) :
    mergeList v (h :: hs) = mergeList (mergeProm h v) hs := rfl

theorem foldHits_some (hs : List GeneProm) : ∀ v, foldHits hs (some v) = some (mergeList v hs) := by
  induction hs with
  | nil => intro v; rfl
  | cons h t ih =>
    intro v
    rw [foldHits_cons, mergeList_cons]
    exact ih (mergeProm h v)

theorem foldHits_ne_nil (h : GeneProm) (hs : List GeneProm) :
    foldHits (h :: hs) none = some (mergeList h hs) := by
  rw [foldHits_cons]
  exact foldHits_some hs h

theorem mergeProm_is_promoter (h v : GeneProm) :
    (mergeProm h v).is_promoter = (v.is_promoter || h.is_promoter) := by
  simp only [mergeProm, updateProm]
  split <;> rfl

theorem mergeProm_is_intronic (h v : GeneProm) :
    (mergeProm h v).is_intronic = (v.is_intronic || h.is_intronic) := by
  simp only [mergeProm, updateProm]
  split <;> rfl

theorem mergeProm_is_exon (h v : GeneProm) :
    (mergeProm h v).is_exon = (v.is_exon || h.is_exon) := by
  simp only [mergeProm, updateProm]
  split <;> rfl

theorem mergeProm_absd (h v : GeneProm) :
    (mergeProm h v).abs_d = min v.abs_d (i32Abs h.d) := by
  simp only [mergeProm, updateProm]
  split <;> rename_i hc <;> simp at hc ⊢ <;> omega

theorem mergeProm_d (h v : GeneProm) :
    (mergeProm h v).d = if i32Abs h.d < v.abs_d then h.d else v.d := by
  simp only [mergeProm, updateProm]
  split <;> simp_all

theorem mergeList_is_promoter (hs : List GeneProm) : ∀ v,
    (mergeList v hs).is_promoter = (v.is_promoter || hs.any (fun h => h.is_promoter)) := by
  induction hs with
  | nil => intro v; simp [mergeList]
  | cons h t ih =>
    intro v
    rw [mergeList_cons, ih, mergeProm_is_promoter]
    simp [Bool.or_assoc]

theorem mergeList_is_intronic (hs : List GeneProm) : ∀ v,
    (mergeList v hs).is_intronic = (v.is_intronic || hs.any (fun h => h.is_intronic)) := by
  induction hs with
  | nil => intro v; simp [mergeList]
  | cons h t ih =>
    intro v
    rw [mergeList_cons, ih, mergeProm_is_intronic]
    simp [Bool.or_assoc]

theorem mergeList_is_exon (hs : List GeneProm) : ∀ v,
    (mergeList v hs).is_exon = (v.is_exon || hs.any (fun h => h.is_exon)) := by
  induction hs with
  | nil => intro v; simp [mergeList]
  | cons h t ih =>
    intro v
    rw [mergeList_cons, ih, mergeProm_is_exon]
    simp [Bool.or_assoc]

theorem mergeList_absd (hs : List GeneProm) : ∀ v,
    (mergeList v hs).abs_d = foldMinAbs v.abs_d hs := by
  induction hs with
  | nil => intro v; rfl
  | cons h t ih =>
    intro v
    rw [mergeList_cons, ih, mergeProm_absd]
    rfl

theorem foldMinAbs_le_init (hs : List GeneProm) : ∀ a, foldMinAbs a hs ≤ a := by
  induction hs with
  | nil => intro a; exact le_refl a
  | cons h t ih =>
    intro a
    calc foldMinAbs a (h :: t) = foldMinAbs (min a (i32Abs h.d)) t := rfl
    _ ≤ min a (i32Abs h.d) := ih _
    _ ≤ a := min_le_left _ _

theorem foldMinAbs_le_mem (hs : List GeneProm) (h' : GeneProm) (hm : h' ∈ hs) :
    ∀ a, foldMinAbs a hs ≤ i32Abs h'.d := by
  induction hs with
  | nil => cases hm
  | cons h t ih =>
    intro a
    rcases List.mem_cons.mp hm with h1 | h1
    · subst h1
      calc foldMinAbs a (h' :: t) = foldMinAbs (min a (i32Abs h'.d)) t := rfl
      _ ≤ min a (i32Abs h'.d) := foldMinAbs_le_init t _
      _ ≤ i32Abs h'.d := min_le_right _ _
    · exact ih h1 _


theorem foldMinAbs_cons (a : Int) (h : GeneProm) (t : List GeneProm) :
    foldMinAbs a (h :: t) = foldMinAbs (min a (i32Abs h.d)) t := rfl

theorem find?_congr_of_mem {α : Type} (l : List α) (p q : α → Bool)
    (h : ∀ x ∈ l, p x = q x) : l.find? p = l.find? q := by
  induction l with
  | nil => rfl
  | cons a t ih =>
    have ha := h a (List.mem_cons_self a t)
    cases hq : q a with
    | false =>
      rw [List.find?_cons_of_neg _ (by simp [ha, hq]), List.find?_cons_of_neg _ (by simp [hq])]
      exact ih fun x hx => h x (List.mem_cons_of_mem a hx)
    | true =>
      rw [List.find?_cons_of_pos _ (by simp [ha, hq]), List.find?_cons_of_pos _ (by simp [hq])]

theorem mergeList_d_find (hs : List GeneProm) : ∀ v : GeneProm, v.abs_d = i32Abs v.d →
    (v.d :: hs.map (fun h => h.d)).find?
        (fun x => decide (i32Abs x = (mergeList v hs).abs_d)) = some (mergeList v hs).d := by
  induction hs with
  | nil =>
    intro v hv
    rw [List.map_nil, List.find?_cons_of_pos _
      (by simp only [mergeList, List.foldl_nil, decide_eq_true_eq]; omega)]
    rfl
  | cons h t ih =>
    intro v hv
    rw [mergeList_cons]
    by_cases hc : i32Abs h.d < v.abs_d
    · have hd' : (mergeProm h v).d = h.d := by rw [mergeProm_d, if_pos hc]
      have ha' : (mergeProm h v).abs_d = i32Abs h.d := by
        rw [mergeProm_absd]
        omega
      have hv' : (mergeProm h v).abs_d = i32Abs (mergeProm h v).d := by rw [hd', ha']
      have hihs := ih (mergeProm h v) hv'
      rw [hd'] at hihs
      have hlow : (mergeList (mergeProm h v) t).abs_d ≤ i32Abs h.d := by
        rw [mergeList_absd, ← ha']
        exact foldMinAbs_le_init t _
      rw [List.map_cons, List.find?_cons_of_neg _
        (by simp only [decide_eq_true_eq]; omega)]
      exact hihs
    · have hd' : (mergeProm h v).d = v.d := by rw [mergeProm_d, if_neg hc]
      have ha' : (mergeProm h v).abs_d = v.abs_d := by
        rw [mergeProm_absd]
        omega
      have hv' : (mergeProm h v).abs_d = i32Abs (mergeProm h v).d := by rw [hd', ha', hv]
      have hihs := ih (mergeProm h v) hv'
      rw [hd'] at hihs
      have hlow : (mergeList (mergeProm h v) t).abs_d ≤ v.abs_d := by
        rw [mergeList_absd, ← ha']
        exact foldMinAbs_le_init t _
      by_cases hpv : i32Abs v.d = (mergeList (mergeProm h v) t).abs_d
      · rw [List.find?_cons_of_pos _ (by simp only [decide_eq_true_eq]; omega)] at hihs
        rw [List.map_cons, List.find?_cons_of_pos _ (by simp only [decide_eq_true_eq]; omega)]
        exact hihs
      · rw [List.find?_cons_of_neg _ (by simp only [decide_eq_true_eq]; omega)] at hihs
        rw [List.map_cons, List.find?_cons_of_neg _ (by simp only [decide_eq_true_eq]; omega),
          List.find?_cons_of_neg _ (by simp only [decide_eq_true_eq]; omega)]
        exact hihs

theorem mergeList_absd_eq (hs : List GeneProm) (v : GeneProm) (hv : v.abs_d = i32Abs v.d) :
    (mergeList v hs).abs_d = i32Abs (mergeList v hs).d := by
  have h := mergeList_d_find hs v hv
  have := List.find?_some h
  simp only [decide_eq_true_eq] at this
  omega


theorem mergeList_d_mem (hs : List GeneProm) (v : GeneProm) (hv : v.abs_d = i32Abs v.d) :
    (mergeList v hs).d ∈ v.d :: hs.map (fun h => h.d) :=
  List.mem_of_find?_eq_some (mergeList_d_find hs v hv)

theorem mergeList_absd_le (hs : List GeneProm) (v : GeneProm) (hv : v.abs_d = i32Abs v.d) :
    ∀ x ∈ v :: hs, (mergeList v hs).abs_d ≤ i32Abs x.d := by
  intro x hx
  rw [mergeList_absd]
  rcases List.mem_cons.mp hx with h1 | h1
  · subst h1
    rw [← hv]
    exact foldMinAbs_le_init hs _
  · exact foldMinAbs_le_mem hs x h1 _

theorem lookupP_annFold (tss : TSSRegion) (mid : Nat) (exonq : String → List GenomicFeature)
    (rows : List GenomicFeature) : ∀ (st : AnnState) (id : String),
    lookupP (annFold tss mid exonq rows st).promoter_map id
      = foldHits (rowHits tss mid exonq rows id) (lookupP st.promoter_map id) := by
  induction rows with
  | nil => intro st id; rfl
  | cons g rest ih =>
    intro st id
    rw [annFold, ih]
    by_cases hg : g.gene_id = id
    · subst hg
      have hf : rowHits tss mid exonq (g :: rest) g.gene_id
          = hitProm tss mid (exonq g.gene_id) g :: rowHits tss mid exonq rest g.gene_id := by
        simp [rowHits, List.filter_cons]
      rw [hf, foldHits_cons]
      congr 1
      exact lookupP_upsertProm_self st.promoter_map g.gene_id (hitProm tss mid (exonq g.gene_id) g)
    · have hf : rowHits tss mid exonq (g :: rest) id = rowHits tss mid exonq rest id := by
        simp [rowHits, List.filter_cons, hg]
      rw [hf]
      congr 1
      exact lookupP_upsertProm_ne st.promoter_map g.gene_id id _ (fun hh => hg hh.symm)

theorem lookupP_withinMap (tss : TSSRegion) (loc : Location) (rows : List GenomicFeature)
    (exonq : String → List GenomicFeature) (id : String) :
    lookupP (withinMap tss loc rows exonq) id
      = foldHits (rowHits tss loc.mid exonq rows id) none := by
  rw [withinMap, annotateState, lookupP_annFold]
  rfl

theorem rowHits_absd (tss : TSSRegion) (mid : Nat) (exonq : String → List GenomicFeature)
    (rows : List GenomicFeature) (id : String) :
    ∀ h ∈ rowHits tss mid exonq rows id, h.abs_d = i32Abs h.d := by
  intro h hm
  obtain ⟨g, _, hg⟩ := List.mem_map.mp hm
  rw [← hg]
  rfl

theorem rowHits_d_range (tss : TSSRegion) (mid : Nat) (exonq : String → List GenomicFeature)
    (rows : List GenomicFeature) (id : String) :
    ∀ h ∈ rowHits tss mid exonq rows id, -2147483648 ≤ h.d ∧ h.d < 2147483648 := by
  intro h hm
  obtain ⟨g, _, hg⟩ := List.mem_map.mp hm
  rw [← hg]
  exact tssDist_range mid g

/-- C2 (amended): folding the transcript hits into the per-gene accumulator
OR-combines the three boolean flags over all hits of a gene; provided no hit
has `d = i32::MIN` (where the release-mode `d.abs()` wraps negative and debug
mode panics), the stored `abs_d` equals `|d|`, is the minimum absolute
distance over the hits, and the stored `d` is the FIRST hit value attaining
that minimum, so a later hit replaces it only when its `|d|` is strictly
smaller and ties keep the first-seen value. -/
theorem c2_merge_rule (tss : TSSRegion) (loc : Location) (rows : List GenomicFeature)
    (exonq : String → List GenomicFeature) (id : String)
    (hne : rowHits tss loc.mid exonq rows id ≠ [])
    (hmin : ∀ h ∈ rowHits tss loc.mid exonq rows id, h.d ≠ -2147483648) :
    ∃ v : GeneProm, lookupP (withinMap tss loc rows exonq) id = some v
      ∧ v.is_promoter = (rowHits tss loc.mid exonq rows id).any (fun h => h.is_promoter)
      ∧ v.is_exon = (rowHits tss loc.mid exonq rows id).any (fun h => h.is_exon)
      ∧ v.is_intronic = (rowHits tss loc.mid exonq rows id).any (fun h => h.is_intronic)
      ∧ v.abs_d = |v.d|
      ∧ (∀ h ∈ rowHits tss loc.mid exonq rows id, v.abs_d ≤ |h.d|)
      ∧ ((rowHits tss loc.mid exonq rows id).map (fun h => h.d)).find?
          (fun x => decide (|x| = v.abs_d)) = some v.d := by
  obtain ⟨h0, t, ht⟩ := List.exists_cons_of_ne_nil hne
  have h0abs : h0.abs_d = i32Abs h0.d := by
    apply rowHits_absd tss loc.mid exonq rows id
    rw [ht]
    exact List.mem_cons_self h0 t
  have habs_all : ∀ h ∈ rowHits tss loc.mid exonq rows id, i32Abs h.d = |h.d| := by
    intro h hm
    obtain ⟨hr1, hr2⟩ := rowHits_d_range tss loc.mid exonq rows id h hm
    exact i32Abs_eq_abs hr1 hr2 (hmin h hm)
  have hdmem : ∀ x ∈ (rowHits tss loc.mid exonq rows id).map (fun h => h.d),
      ∃ h ∈ rowHits tss loc.mid exonq rows id, h.d = x := fun x hx => List.mem_map.mp hx
  have hMd : ∃ h ∈ rowHits tss loc.mid exonq rows id, h.d = (mergeList h0 t).d := by
    apply hdmem
    rw [ht, List.map_cons]
    exact mergeList_d_mem t h0 h0abs
  refine ⟨mergeList h0 t, ?_, ?_, ?_, ?_, ?_, ?_, ?_⟩
  · rw [lookupP_withinMap, ht, foldHits_ne_nil]
  · rw [ht, mergeList_is_promoter, List.any_cons]
  · rw [ht, mergeList_is_exon, List.any_cons]
  · rw [ht, mergeList_is_intronic, List.any_cons]
  · obtain ⟨h, hm, he⟩ := hMd
    rw [mergeList_absd_eq t h0 h0abs, ← he, habs_all h hm]
  · intro h hm
    rw [← habs_all h hm]
    have hx : h ∈ h0 :: t := by rw [← ht]; exact hm
    exact mergeList_absd_le t h0 h0abs h hx
  · have hfind := mergeList_d_find t h0 h0abs
    rw [ht, List.map_cons]
    have hcong : ∀ x ∈ h0.d :: t.map (fun h => h.d),
        (fun x => decide (|x| = (mergeList h0 t).abs_d)) x
          = (fun x => decide (i32Abs x = (mergeList h0 t).abs_d)) x := by
      intro x hx
      have hx' : x ∈ (rowHits tss loc.mid exonq rows id).map (fun h => h.d) := by
        rw [ht, List.map_cons]
        exact hx
      obtain ⟨h, hm, he⟩ := hdmem x hx'
      simp only [decide_eq_decide]
      rw [← he, habs_all h hm]
    rw [find?_congr_of_mem _ _ _ hcong]
    exact hfind

/-- Witness for C2: two overlapping transcript hits of gene `"G"`, the first
with `|d| = 50` and `is_exon` true, the second with `|d| = 10` and
`is_promoter` true (no hit at `i32::MIN`), aggregate into one accumulator with
both flags true and `abs_d = 10`. -/
theorem c2_merge_rule_witness :
    rowHits ⟨20, 20⟩ (Location.mid ⟨"chr1", 1200, 1300⟩)
        (fun _ => [⟨9, "chr1", 1295, 1305, "+", "G", "S", 0⟩])
        [⟨1, "chr1", 1300, 3000, "+", "G", "S", 0⟩, ⟨2, "chr1", 1260, 3000, "+", "G", "S", 0⟩]
        "G" ≠ []
    ∧ (∀ h ∈ rowHits ⟨20, 20⟩ (Location.mid ⟨"chr1", 1200, 1300⟩)
        (fun _ => [⟨9, "chr1", 1295, 1305, "+", "G", "S", 0⟩])
        [⟨1, "chr1", 1300, 3000, "+", "G", "S", 0⟩, ⟨2, "chr1", 1260, 3000, "+", "G", "S", 0⟩]
        "G", h.d ≠ -2147483648)
    ∧ (∃ v : GeneProm, lookupP (withinMap ⟨20, 20⟩ ⟨"chr1", 1200, 1300⟩
          [⟨1, "chr1", 1300, 3000, "+", "G", "S", 0⟩, ⟨2, "chr1", 1260, 3000, "+", "G", "S", 0⟩]
          (fun _ => [⟨9, "chr1", 1295, 1305, "+", "G", "S", 0⟩])) "G" = some v
        ∧ v.is_promoter = (rowHits ⟨20, 20⟩ (Location.mid ⟨"chr1", 1200, 1300⟩)
            (fun _ => [⟨9, "chr1", 1295, 1305, "+", "G", "S", 0⟩])
            [⟨1, "chr1", 1300, 3000, "+", "G", "S", 0⟩, ⟨2, "chr1", 1260, 3000, "+", "G", "S", 0⟩]
            "G").any (fun h => h.is_promoter)
        ∧ v.is_exon = (rowHits ⟨20, 20⟩ (Location.mid ⟨"chr1", 1200, 1300⟩)
            (fun _ => [⟨9, "chr1", 1295, 1305, "+", "G", "S", 0⟩])
            [⟨1, "chr1", 1300, 3000, "+", "G", "S", 0⟩, ⟨2, "chr1", 1260, 3000, "+", "G", "S", 0⟩]
            "G").any (fun h => h.is_exon)
        ∧ v.is_intronic = (rowHits ⟨20, 20⟩ (Location.mid ⟨"chr1", 1200, 1300⟩)
            (fun _ => [⟨9, "chr1", 1295, 1305, "+", "G", "S", 0⟩])
            [⟨1, "chr1", 1300, 3000, "+", "G", "S", 0⟩, ⟨2, "chr1", 1260, 3000, "+", "G", "S", 0⟩]
            "G").any (fun h => h.is_intronic)
        ∧ v.abs_d = |v.d|
        ∧ (∀ h ∈ rowHits ⟨20, 20⟩ (Location.mid ⟨"chr1", 1200, 1300⟩)
            (fun _ => [⟨9, "chr1", 1295, 1305, "+", "G", "S", 0⟩])
            [⟨1, "chr1", 1300, 3000, "+", "G", "S", 0⟩, ⟨2, "chr1", 1260, 3000, "+", "G", "S", 0⟩]
            "G", v.abs_d ≤ |h.d|)
        ∧ ((rowHits ⟨20, 20⟩ (Location.mid ⟨"chr1", 1200, 1300⟩)
            (fun _ => [⟨9, "chr1", 1295, 1305, "+", "G", "S", 0⟩])
            [⟨1, "chr1", 1300, 3000, "+", "G", "S", 0⟩, ⟨2, "chr1", 1260, 3000, "+", "G", "S", 0⟩]
            "G").map (fun h => h.d)).find? (fun x => decide (|x| = v.abs_d)) = some v.d)
    ∧ lookupP (withinMap ⟨20, 20⟩ ⟨"chr1", 1200, 1300⟩
          [⟨1, "chr1", 1300, 3000, "+", "G", "S", 0⟩, ⟨2, "chr1", 1260, 3000, "+", "G", "S", 0⟩]
          (fun _ => [⟨9, "chr1", 1295, 1305, "+", "G", "S", 0⟩])) "G"
        = some ⟨true, false, true, 10, 10⟩ :=
  ⟨by decide, by decide,
   c2_merge_rule ⟨20, 20⟩ ⟨"chr1", 1200, 1300⟩
     [⟨1, "chr1", 1300, 3000, "+", "G", "S", 0⟩, ⟨2, "chr1", 1260, 3000, "+", "G", "S", 0⟩]
     (fun _ => [⟨9, "chr1", 1295, 1305, "+", "G", "S", 0⟩]) "G" (by decide) (by decide),
   by decide⟩

/-- Counterexample for C2 as stated: a later hit whose wrapped `d.abs()` is
`i32::MIN` REPLACES a stored value of strictly smaller true absolute distance:
gene `"G"` first hits at `d = 100`, then a `+`-strand row with
`start = 2^31` against midpoint `0` gives `d = -2147483648`, whose wrapping
absolute value `-2147483648` compares below `100`, so the accumulator ends at
`d = abs_d = -2147483648` although `|{-2147483648}| > |100|` (debug mode
panics at this `d.abs()` instead). -/
theorem c2_counterexample :
    ((rowHits tssRegionDefault (Location.mid ⟨"chr1", 0, 0⟩) (fun _ => [])
        [⟨1, "chr1", 100, 200, "+", "G", "S", 0⟩,
         ⟨2, "chr1", 2147483648, 2147483649, "+", "G", "S", 0⟩] "G").map (fun h => h.d)
      = [100, -2147483648])
    ∧ lookupP (withinMap tssRegionDefault ⟨"chr1", 0, 0⟩
        [⟨1, "chr1", 100, 200, "+", "G", "S", 0⟩,
         ⟨2, "chr1", 2147483648, 2147483649, "+", "G", "S", 0⟩]
        (fun _ => [])) "G"
      = some ⟨false, false, false, -2147483648, -2147483648⟩
    ∧ ¬(|(-2147483648 : Int)| < |(100 : Int)|) := by
  refine ⟨by decide, by decide, by decide⟩

theorem keysP_cons (k : String) (v : GeneProm) (rest : List (String × GeneProm)) :
    keysP ((k, v) :: rest) = k :: keysP rest := rfl

theorem keysP_upsertProm (m : List (String × GeneProm)) (id : String) (h : GeneProm) :
    keysP (upsertProm m id h) = if id ∈ keysP m then keysP m else keysP m ++ [id] := by
  induction m with
  | nil => simp [keysP, upsertProm]
  | cons p rest ih =>
    obtain ⟨k, v⟩ := p
    by_cases hk : k = id
    · subst hk
      simp [upsertProm, keysP_cons, List.mem_cons]
    · have hne : ¬id = k := fun hh => hk hh.symm
      simp only [upsertProm, if_neg hk, keysP_cons, ih, List.mem_cons, hne, false_or]
      by_cases hm : id ∈ keysP rest
      · simp [hm]
      · simp [hm, List.cons_append]

theorem nodup_keysP_upsertProm (m : List (String × GeneProm)) (id : String) (h : GeneProm)
    (hnd : (keysP m).Nodup) : (keysP (upsertProm m id h)).Nodup := by
  rw [keysP_upsertProm]
  by_cases hm : id ∈ keysP m
  · simp [hm, hnd]
  · simp [hm, List.nodup_append, hnd]

theorem nodup_keysP_annFold (tss : TSSRegion) (mid : Nat) (exonq : String → List GenomicFeature)
    (rows : List GenomicFeature) : ∀ st : AnnState, (keysP st.promoter_map).Nodup →
    (keysP (annFold tss mid exonq rows st).promoter_map).Nodup := by
  induction rows with
  | nil => intro st h; exact h
  | cons g rest ih =>
    intro st h
    rw [annFold]
    exact ih _ (nodup_keysP_upsertProm st.promoter_map g.gene_id _ h)

theorem withinMap_nodup (tss : TSSRegion) (loc : Location) (rows : List GenomicFeature)
    (exonq : String → List GenomicFeature) :
    (keysP (withinMap tss loc rows exonq)).Nodup :=
  nodup_keysP_annFold tss loc.mid exonq rows ⟨[], []⟩ (by simp [keysP])

theorem lookupP_eq_some_of_mem (m : List (String × GeneProm)) (hnd : (keysP m).Nodup)
    {k : String} {v : GeneProm} (hm : (k, v) ∈ m) : lookupP m k = some v := by
  induction m with
  | nil => cases hm
  | cons p rest ih =>
    obtain ⟨k0, v0⟩ := p
    have hnd' : k0 ∉ keysP rest ∧ (keysP rest).Nodup := by
      simpa [keysP] using hnd
    rcases List.mem_cons.mp hm with h1 | h1
    · obtain ⟨hk, hv⟩ := Prod.mk.injEq .. ▸ h1
      subst hk
      subst hv
      simp [lookupP]
    · have hk0 : k0 ≠ k := by
        intro hh
        subst hh
        exact hnd'.1 (List.mem_map_of_mem Prod.fst h1)
      simp only [lookupP, if_neg hk0]
      exact ih hnd'.2 h1

theorem withinMap_entry (tss : TSSRegion) (loc : Location) (rows : List GenomicFeature)
    (exonq : String → List GenomicFeature) {k : String} {v : GeneProm}
    (hm : (k, v) ∈ withinMap tss loc rows exonq) :
    lookupP (withinMap tss loc rows exonq) k = some v ∧ v.abs_d = i32Abs v.d := by
  have hl := lookupP_eq_some_of_mem _ (withinMap_nodup tss loc rows exonq) hm
  refine ⟨hl, ?_⟩
  have hl2 := hl
  rw [lookupP_withinMap] at hl2
  cases hhits : rowHits tss loc.mid exonq rows k with
  | nil =>
    rw [hhits] at hl2
    cases hl2
  | cons h0 t =>
    rw [hhits, foldHits_ne_nil] at hl2
    have hv : mergeList h0 t = v := by injection hl2
    rw [← hv]
    refine mergeList_absd_eq t h0 (rowHits_absd tss loc.mid exonq rows k h0 ?_)
    rw [hhits]
    exact List.mem_cons_self h0 t

theorem withinMap_entry_d_range (tss : TSSRegion) (loc : Location)
    (rows : List GenomicFeature) (exonq : String → List GenomicFeature)
    {k : String} {v : GeneProm} (hm : (k, v) ∈ withinMap tss loc rows exonq) :
    -2147483648 ≤ v.d ∧ v.d < 2147483648 := by
  have hl := lookupP_eq_some_of_mem _ (withinMap_nodup tss loc rows exonq) hm
  rw [lookupP_withinMap] at hl
  cases hhits : rowHits tss loc.mid exonq rows k with
  | nil =>
    rw [hhits] at hl
    cases hl
  | cons h0 t =>
    rw [hhits, foldHits_ne_nil] at hl
    have hv : mergeList h0 t = v := by injection hl
    have h0abs : h0.abs_d = i32Abs h0.d := by
      apply rowHits_absd tss loc.mid exonq rows k
      rw [hhits]
      exact List.mem_cons_self h0 t
    have hdm := mergeList_d_mem t h0 h0abs
    rw [hv] at hdm
    have hdm' : v.d ∈ (rowHits tss loc.mid exonq rows k).map (fun h => h.d) := by
      rw [hhits, List.map_cons]
      exact hdm
    obtain ⟨h, hmem, he⟩ := List.mem_map.mp hdm'
    rw [← he]
    exact rowHits_d_range tss loc.mid exonq rows k h hmem

theorem distPairs_fact (tss : TSSRegion) (loc : Location) (rows : List GenomicFeature)
    (exonq : String → List GenomicFeature) {p : Int × String}
    (hp : p ∈ distPairs (withinMap tss loc rows exonq)) :
    p.1 = i32Abs (promOf (withinMap tss loc rows exonq) p.2).d
    ∧ -2147483648 ≤ (promOf (withinMap tss loc rows exonq) p.2).d
    ∧ (promOf (withinMap tss loc rows exonq) p.2).d < 2147483648 := by
  obtain ⟨e, hem, hei⟩ := List.mem_map.mp hp
  obtain ⟨k, v⟩ := e
  obtain ⟨hl, habs⟩ := withinMap_entry tss loc rows exonq hem
  obtain ⟨hr1, hr2⟩ := withinMap_entry_d_range tss loc rows exonq hem
  rw [← hei]
  simp only [promOf, hl, Option.getD_some]
  exact ⟨habs, hr1, hr2⟩

/-- C1 (amended): the emitted "within" ordering ascends by the stored `abs_d`
(the wrapping `i32` `d.abs()`), with lexicographic gene-id tie-break; whenever
no emitted signed distance equals `i32::MIN` (where release-mode `d.abs()`
wraps negative and debug mode panics), this IS the claimed order: every
earlier `(gene_id, d)` entry relates to every later one by strictly smaller
`|d|`, or by equal `|d|` and lexicographically smaller-or-equal gene id. -/
theorem c1_within_ordering (tss : TSSRegion) (loc : Location) (rows : List GenomicFeature)
    (exonq : String → List GenomicFeature)
    (hmin : ∀ x ∈ withinDVals tss loc rows exonq, x ≠ -2147483648) :
    List.Pairwise (fun a b : String × Int => |a.2| < |b.2| ∨ (|a.2| = |b.2| ∧ a.1 ≤ b.1))
      ((withinIds tss loc rows exonq).zip (withinDVals tss loc rows exonq)) := by
  have hzip : (withinIds tss loc rows exonq).zip (withinDVals tss loc rows exonq)
      = (withinEntriesSorted tss loc rows exonq).map
          (fun p => (p.2, (promOf (withinMap tss loc rows exonq) p.2).d)) := by
    rw [withinDVals]
    calc (withinIds tss loc rows exonq).zip
          ((withinIds tss loc rows exonq).map
            (fun id => (promOf (withinMap tss loc rows exonq) id).d))
        = ((withinIds tss loc rows exonq).map id).zip
          ((withinIds tss loc rows exonq).map
            (fun id => (promOf (withinMap tss loc rows exonq) id).d)) := by rw [List.map_id]
      _ = (withinIds tss loc rows exonq).map
            (fun a => (id a, (promOf (withinMap tss loc rows exonq) a).d)) :=
          List.zip_map' id _ _
      _ = (withinEntriesSorted tss loc rows exonq).map
            (fun p => (p.2, (promOf (withinMap tss loc rows exonq) p.2).d)) := by
          rw [withinIds, List.map_map]
          rfl
  rw [hzip, List.pairwise_map]
  have hsorted : List.Pairwise pairLe (withinEntriesSorted tss loc rows exonq) :=
    List.sorted_insertionSort pairLe (distPairs (withinMap tss loc rows exonq))
  refine List.Pairwise.imp_of_mem ?_ hsorted
  intro p q hp hq hr
  have hp' : p ∈ distPairs (withinMap tss loc rows exonq) := by
    rw [withinEntriesSorted] at hp
    exact (List.mem_insertionSort pairLe).mp hp
  have hq' : q ∈ distPairs (withinMap tss loc rows exonq) := by
    rw [withinEntriesSorted] at hq
    exact (List.mem_insertionSort pairLe).mp hq
  have hdp_mem : (promOf (withinMap tss loc rows exonq) p.2).d
      ∈ withinDVals tss loc rows exonq := by
    rw [withinDVals]
    refine List.mem_map_of_mem _ ?_
    rw [withinIds]
    exact List.mem_map_of_mem Prod.snd hp
  have hdq_mem : (promOf (withinMap tss loc rows exonq) q.2).d
      ∈ withinDVals tss loc rows exonq := by
    rw [withinDVals]
    refine List.mem_map_of_mem _ ?_
    rw [withinIds]
    exact List.mem_map_of_mem Prod.snd hq
  obtain ⟨fp, hp1, hp2⟩ := distPairs_fact tss loc rows exonq hp'
  obtain ⟨fq, hq1, hq2⟩ := distPairs_fact tss loc rows exonq hq'
  have fpa : p.1 = |(promOf (withinMap tss loc rows exonq) p.2).d| := by
    rw [fp, i32Abs_eq_abs hp1 hp2 (hmin _ hdp_mem)]
  have fqa : q.1 = |(promOf (withinMap tss loc rows exonq) q.2).d| := by
    rw [fq, i32Abs_eq_abs hq1 hq2 (hmin _ hdq_mem)]
  rcases hr with h1 | ⟨h1, h2⟩
  · exact Or.inl (fpa ▸ fqa ▸ h1)
  · exact Or.inr ⟨fpa ▸ fqa ▸ h1, h2⟩

/-- Witness for C1 at a concrete two-gene store with all distances away from
`i32::MIN`. -/
theorem c1_within_ordering_witness :
    (∀ x ∈ withinDVals tssRegionDefault ⟨"chr1", 1200, 1300⟩
        [⟨1, "chr1", 1000, 2000, "+", "GA", "SA", 0⟩,
         ⟨2, "chr1", 1500, 2500, "-", "GB", "SB", 0⟩] (fun _ => []), x ≠ -2147483648)
    ∧ List.Pairwise (fun a b : String × Int => |a.2| < |b.2| ∨ (|a.2| = |b.2| ∧ a.1 ≤ b.1))
        ((withinIds tssRegionDefault ⟨"chr1", 1200, 1300⟩
            [⟨1, "chr1", 1000, 2000, "+", "GA", "SA", 0⟩,
             ⟨2, "chr1", 1500, 2500, "-", "GB", "SB", 0⟩] (fun _ => [])).zip
          (withinDVals tssRegionDefault ⟨"chr1", 1200, 1300⟩
            [⟨1, "chr1", 1000, 2000, "+", "GA", "SA", 0⟩,
             ⟨2, "chr1", 1500, 2500, "-", "GB", "SB", 0⟩] (fun _ => []))) :=
  ⟨by decide,
   c1_within_ordering tssRegionDefault ⟨"chr1", 1200, 1300⟩
     [⟨1, "chr1", 1000, 2000, "+", "GA", "SA", 0⟩,
      ⟨2, "chr1", 1500, 2500, "-", "GB", "SB", 0⟩] (fun _ => []) (by decide)⟩

/-- Counterexample for C1 as stated: a `+`-strand row with `start = 2^31`
against midpoint `0` stores `d = -2147483648` with wrapped
`abs_d = -2147483648`, which sorts FIRST in the signed `BTreeMap` order even
though its true absolute distance (2^31) is maximal: the emitted order is not
ascending in `abs(distance)`. -/
theorem c1_counterexample :
    withinIds tssRegionDefault ⟨"chr1", 0, 0⟩
        [⟨1, "chr1", 100, 200, "+", "GA", "SA", 0⟩,
         ⟨2, "chr1", 2147483648, 2147483649, "+", "GB", "SB", 0⟩] (fun _ => [])
      = ["GB", "GA"]
    ∧ withinDVals tssRegionDefault ⟨"chr1", 0, 0⟩
        [⟨1, "chr1", 100, 200, "+", "GA", "SA", 0⟩,
         ⟨2, "chr1", 2147483648, 2147483649, "+", "GB", "SB", 0⟩] (fun _ => [])
      = [-2147483648, 100]
    ∧ ¬(|(-2147483648 : Int)| ≤ |(100 : Int)|) := by
  refine ⟨by decide, by decide, by decide⟩

theorem mem_keysP_upsertProm (m : List (String × GeneProm)) (id id' : String) (h : GeneProm) :
    id' ∈ keysP (upsertProm m id h) ↔ id' ∈ keysP m ∨ id' = id := by
  rw [keysP_upsertProm]
  by_cases hm : id ∈ keysP m
  · simp only [hm, if_true]
    constructor
    · exact Or.inl
    · rintro (h1 | h1)
      · exact h1
      · subst h1
        exact hm
  · simp [hm]

theorem mem_keysP_annFold (tss : TSSRegion) (mid : Nat) (exonq : String → List GenomicFeature)
    (rows : List GenomicFeature) : ∀ (st : AnnState) (id : String),
    id ∈ keysP (annFold tss mid exonq rows st).promoter_map
      ↔ id ∈ keysP st.promoter_map ∨ ∃ g ∈ rows, g.gene_id = id := by
  induction rows with
  | nil => intro st id; simp [annFold]
  | cons g rest ih =>
    intro st id
    rw [annFold, ih]
    have hst : (stepRow tss mid (exonq g.gene_id) st g).promoter_map
        = upsertProm st.promoter_map g.gene_id (hitProm tss mid (exonq g.gene_id) g) := rfl
    rw [hst, mem_keysP_upsertProm]
    constructor
    · rintro ((h1 | h1) | h1)
      · exact Or.inl h1
      · exact Or.inr ⟨g, List.mem_cons_self g rest, h1.symm⟩
      · obtain ⟨g', hg', he⟩ := h1
        exact Or.inr ⟨g', List.mem_cons_of_mem g hg', he⟩
    · rintro (h1 | ⟨g', hg', he⟩)
      · exact Or.inl (Or.inl h1)
      · rcases List.mem_cons.mp hg' with h2 | h2
        · subst h2
          exact Or.inl (Or.inr he.symm)
        · exact Or.inr ⟨g', h2, he⟩

theorem mem_keysP_withinMap (tss : TSSRegion) (loc : Location) (rows : List GenomicFeature)
    (exonq : String → List GenomicFeature) (id : String) :
    id ∈ keysP (withinMap tss loc rows exonq) ↔ ∃ g ∈ rows, g.gene_id = id := by
  rw [withinMap, annotateState, mem_keysP_annFold]
  simp [keysP]

theorem perm_of_nodup_of_mem_iff {α : Type} [DecidableEq α] {l1 l2 : List α}
    (h1 : l1.Nodup) (h2 : l2.Nodup) (h : ∀ a, a ∈ l1 ↔ a ∈ l2) : l1.Perm l2 := by
  rw [List.perm_iff_count]
  intro a
  by_cases hm : a ∈ l1
  · rw [List.count_eq_one_of_mem h1 hm, List.count_eq_one_of_mem h2 ((h a).mp hm)]
  · rw [List.count_eq_zero_of_not_mem hm,
      List.count_eq_zero_of_not_mem (fun hh => hm ((h a).mpr hh))]

theorem keysP_withinMap_length (tss : TSSRegion) (loc : Location) (rows : List GenomicFeature)
    (exonq : String → List GenomicFeature) :
    (withinMap tss loc rows exonq).length = (rows.map (fun g => g.gene_id)).dedup.length := by
  have hperm : (keysP (withinMap tss loc rows exonq)).Perm
      (rows.map (fun g => g.gene_id)).dedup := by
    refine perm_of_nodup_of_mem_iff (withinMap_nodup tss loc rows exonq)
      (List.nodup_dedup _) ?_
    intro a
    rw [mem_keysP_withinMap, List.mem_dedup, List.mem_map]
  have hk : (keysP (withinMap tss loc rows exonq)).length
      = (withinMap tss loc rows exonq).length := by
    rw [keysP, List.length_map]
  rw [← hk, hperm.length_eq]

theorem annotateWithin_def (tss : TSSRegion) (loc : Location) (rows : List GenomicFeature)
    (exonq : String → List GenomicFeature) :
    annotateWithin tss loc rows exonq
      = if (withinIds tss loc rows exonq).length = 0 then
          ⟨[NA], [NA], (withinIds tss loc rows exonq).map
            (fun id => labelOf (promOf (withinMap tss loc rows exonq) id)), [NA]⟩
        else
          ⟨withinIds tss loc rows exonq,
           (withinIds tss loc rows exonq).map (symOf (annotateState tss loc rows exonq).id_map),
           (withinIds tss loc rows exonq).map
             (fun id => labelOf (promOf (withinMap tss loc rows exonq) id)),
           (withinIds tss loc rows exonq).map
             (fun id => toString (promOf (withinMap tss loc rows exonq) id).d)⟩ := rfl

theorem withinIds_length (tss : TSSRegion) (loc : Location) (rows : List GenomicFeature)
    (exonq : String → List GenomicFeature) :
    (withinIds tss loc rows exonq).length = (withinMap tss loc rows exonq).length := by
  rw [withinIds, List.length_map, withinEntriesSorted,
    (List.perm_insertionSort pairLe _).length_eq, distPairs, List.length_map]

/-- C3 (amended): the symbols and distances lists always match the ids list in
length; the labels list always has length equal to the number of distinct
overlapping gene ids; when genes overlap, all four lists have that length;
when none do, ids, symbols and dists each contain the single `"n/a"` sentinel
while the labels list is EMPTY (the code never pushes the sentinel onto
`prom_labels`). -/
theorem c3_within_lengths (tss : TSSRegion) (loc : Location) (rows : List GenomicFeature)
    (exonq : String → List GenomicFeature) :
    (annotateWithin tss loc rows exonq).labels.length
        = (rows.map (fun g => g.gene_id)).dedup.length
    ∧ (annotateWithin tss loc rows exonq).symbols.length
        = (annotateWithin tss loc rows exonq).ids.length
    ∧ (annotateWithin tss loc rows exonq).dists.length
        = (annotateWithin tss loc rows exonq).ids.length
    ∧ (annotateWithin tss loc rows exonq).ids.length
        = (if rows = [] then 1 else (rows.map (fun g => g.gene_id)).dedup.length)
    ∧ (if rows = [] then
        (annotateWithin tss loc rows exonq).ids = [NA]
        ∧ (annotateWithin tss loc rows exonq).symbols = [NA]
        ∧ (annotateWithin tss loc rows exonq).dists = [NA]
        ∧ (annotateWithin tss loc rows exonq).labels = []
      else True) := by
  by_cases hrows : rows = []
  · subst hrows
    have h0 : annotateWithin tss loc [] exonq = ⟨[NA], [NA], [], [NA]⟩ := rfl
    simp [h0]
  · have hne0 : ¬(withinIds tss loc rows exonq).length = 0 := by
      obtain ⟨g, t, rfl⟩ := List.exists_cons_of_ne_nil hrows
      intro hlen0
      have hmem : g.gene_id ∈ keysP (withinMap tss loc (g :: t) exonq) :=
        (mem_keysP_withinMap tss loc (g :: t) exonq g.gene_id).mpr
          ⟨g, List.mem_cons_self g t, rfl⟩
      rw [withinIds_length] at hlen0
      have : keysP (withinMap tss loc (g :: t) exonq) = [] := by
        have : (keysP (withinMap tss loc (g :: t) exonq)).length = 0 := by
          rw [keysP, List.length_map, hlen0]
        exact List.length_eq_zero.mp this
      rw [this] at hmem
      cases hmem
    rw [annotateWithin_def, if_neg hne0]
    refine ⟨?_, ?_, ?_, ?_, ?_⟩
    · rw [List.length_map, withinIds_length, keysP_withinMap_length]
    · rw [List.length_map]
    · rw [List.length_map]
    · rw [if_neg hrows, withinIds_length, keysP_withinMap_length]
    · rw [if_neg hrows]
      trivial

/-- Counterexample for C3 as stated: with no overlapping genes the code pushes
the `"n/a"` sentinel onto the ids, symbols and dists lists but NOT onto the
labels list, so the four "within" lists do not all have equal length and the
labels list does not contain the sentinel. -/
theorem c3_counterexample :
    annotateWithin tssRegionDefault ⟨"chr1", 100, 200⟩ [] (fun _ => [])
      = ⟨[NA], [NA], [], [NA]⟩
    ∧ (annotateWithin tssRegionDefault ⟨"chr1", 100, 200⟩ [] (fun _ => [])).labels.length
      ≠ (annotateWithin tssRegionDefault ⟨"chr1", 100, 200⟩ [] (fun _ => [])).ids.length :=
  ⟨rfl, by decide⟩


theorem make_label_ne_intergenic (p e i : Bool) : make_label p e i ≠ INTERGENIC := by
  cases p <;> cases e <;> cases i <;> decide

/-- C5 (amended): `classify_location` computes `s = start − offset_5p` on `+`
strand (plain `start` otherwise) and `e = end + offset_5p` on `-` strand
(plain `end` otherwise) — the gene extent extended by `offset_5p` on its 5'
side, NOT the `[TSS − offset_5p, TSS + offset_3p]` promoter window of the data
model — and returns `"intergenic"` exactly when the query interval lies
entirely outside that `[s, e]`. -/
theorem c5_intergenic_iff (tss : TSSRegion) (loc : Location) (f : GenomicFeature)
    (exonRes : Except String (List GenomicFeature)) :
    classify_location tss loc f exonRes = INTERGENIC
      ↔ (loc.start > clHi tss f ∨ loc.end_ < clLo tss f) := by
  simp only [classify_location]
  by_cases hc : loc.start > clHi tss f ∨ loc.end_ < clLo tss f
  · simp [hc]
  · simp [hc, make_label_ne_intergenic]

/-- Counterexample for C5 as stated: a query interval entirely beyond the
spec's promoter-window upper bound `TSS + offset_3p` (20000 > 11000), inside
the gene body, is classified `"intronic"`, not `"intergenic"`: the code's
window is the promoter-extended gene extent, not the promoter window. -/
theorem c5_counterexample :
    (20000 : Nat) > specPromHi tssRegionDefault ⟨1, "chr1", 10000, 50000, "+", "G1", "G1", 0⟩
    ∧ classify_location tssRegionDefault ⟨"chr1", 20000, 20010⟩
        ⟨1, "chr1", 10000, 50000, "+", "G1", "G1", 0⟩ (.ok []) = INTRONIC
    ∧ INTRONIC ≠ INTERGENIC := by
  refine ⟨by decide, by decide, by decide⟩

theorem foldRowsE_append (tss : TSSRegion) (mid : Nat)
    (exonq : String → Except String (List GenomicFeature))
    (pre rows2 : List GenomicFeature) : ∀ st : AnnState,
    foldRowsE tss mid exonq (pre ++ rows2) st
      = match foldRowsE tss mid exonq pre st with
        | .error e => .error e
        | .ok st' => foldRowsE tss mid exonq rows2 st' := by
  induction pre with
  | nil => intro st; rfl
  | cons g rest ih =>
    intro st
    rw [List.cons_append]
    cases hq : exonq g.gene_id with
    | error e => simp [foldRowsE, hq]
    | ok exons => simp [foldRowsE, hq, ih]

theorem foldRowsE_ok (tss : TSSRegion) (mid : Nat)
    (exonq : String → Except String (List GenomicFeature)) :
    ∀ pre : List GenomicFeature,
    (∀ g ∈ pre, ∃ l, exonq g.gene_id = .ok l) → ∀ st : AnnState,
    ∃ st', foldRowsE tss mid exonq pre st = .ok st' := by
  intro pre
  induction pre with
  | nil => intro _ st; exact ⟨st, rfl⟩
  | cons g rest ih =>
    intro hok st
    obtain ⟨l, hl⟩ := hok g (List.mem_cons_self g rest)
    obtain ⟨st', hst'⟩ := ih (fun g' hg' => hok g' (List.mem_cons_of_mem g hg'))
      (stepRow tss mid l st g)
    exact ⟨st', by simp [foldRowsE, hl, hst']⟩

/-- C4 (amended): a failure of the promoter-extended overlap query, of the
exon query at ANY position of the annotate loop (all earlier rows' queries
having succeeded, so the loop reaches it), or of the closest-genes query
aborts the whole `annotate` call with the store's error; but a failure of the
exon query issued inside `classify_location` (while labelling closest genes)
is swallowed and treated as an empty exon list. -/
theorem c4_error_propagation (tss : TSSRegion) (loc : Location)
    (exonq : String → Except String (List GenomicFeature))
    (closestQ : Except String (List GenomicFeature)) (e : String) :
    annotateE tss loc (.error e) exonq closestQ = .error e
    ∧ (∀ (pre : List GenomicFeature) (g : GenomicFeature) (post : List GenomicFeature),
        (∀ g' ∈ pre, ∃ l, exonq g'.gene_id = .ok l) →
        exonq g.gene_id = .error e →
        annotateE tss loc (.ok (pre ++ g :: post)) exonq closestQ = .error e)
    ∧ (∀ (rows : List GenomicFeature) (st : AnnState),
        foldRowsE tss loc.mid exonq rows ⟨[], []⟩ = .ok st →
        annotateE tss loc (.ok rows) exonq (.error e) = .error e)
    ∧ (∀ f : GenomicFeature,
        classify_location tss loc f (.error e) = classify_location tss loc f (.ok [])) := by
  refine ⟨rfl, ?_, ?_, ?_⟩
  · intro pre g post hok hq
    obtain ⟨st', hst'⟩ := foldRowsE_ok tss loc.mid exonq pre hok ⟨[], []⟩
    simp only [annotateE, foldRowsE_append, hst', foldRowsE, hq]
  · intro rows st hfold
    simp only [annotateE, hfold]
  · intro f
    rfl

/-- Witness for C4: each propagation arm at a concrete store state — the exon
query fails at the SECOND loop row, the first row's query succeeding — plus
the swallowed classify-stage failure. -/
theorem c4_error_propagation_witness :
    annotateE tssRegionDefault ⟨"chr1", 5500, 5510⟩ (.error "boom")
        (fun _ => .ok []) (.ok []) = .error "boom"
    ∧ (fun id => if id = "G2" then Except.error "boom"
        else Except.ok ([] : List GenomicFeature)) "G2" = .error "boom"
    ∧ annotateE tssRegionDefault ⟨"chr1", 5500, 5510⟩
        (.ok [⟨1, "chr1", 5000, 9000, "+", "G1", "GENE1", 0⟩,
              ⟨2, "chr1", 5100, 9100, "+", "G2", "GENE2", 0⟩])
        (fun id => if id = "G2" then Except.error "boom"
          else Except.ok ([] : List GenomicFeature)) (.ok []) = .error "boom"
    ∧ annotateE tssRegionDefault ⟨"chr1", 5500, 5510⟩ (.ok []) (fun _ => .ok [])
        (.error "boom") = .error "boom"
    ∧ classify_location tssRegionDefault ⟨"chr1", 5500, 5510⟩
        ⟨1, "chr1", 5000, 9000, "+", "G1", "GENE1", 0⟩ (.error "boom")
      = classify_location tssRegionDefault ⟨"chr1", 5500, 5510⟩
        ⟨1, "chr1", 5000, 9000, "+", "G1", "GENE1", 0⟩ (.ok []) :=
  ⟨(c4_error_propagation tssRegionDefault ⟨"chr1", 5500, 5510⟩ (fun _ => .ok []) (.ok []) "boom").1,
   rfl,
   (c4_error_propagation tssRegionDefault ⟨"chr1", 5500, 5510⟩
      (fun id => if id = "G2" then Except.error "boom"
        else Except.ok ([] : List GenomicFeature)) (.ok []) "boom").2.1
     [⟨1, "chr1", 5000, 9000, "+", "G1", "GENE1", 0⟩]
     ⟨2, "chr1", 5100, 9100, "+", "G2", "GENE2", 0⟩ []
     (fun g' hg' => by
       rw [List.mem_singleton.mp hg']
       exact ⟨[], rfl⟩)
     rfl,
   (c4_error_propagation tssRegionDefault ⟨"chr1", 5500, 5510⟩ (fun _ => .ok [])
      (.error "boom") "boom").2.2.1 [] ⟨[], []⟩ rfl,
   (c4_error_propagation tssRegionDefault ⟨"chr1", 5500, 5510⟩
      (fun id => if id = "G2" then Except.error "boom"
        else Except.ok ([] : List GenomicFeature))
      (.ok []) "boom").2.2.2 ⟨1, "chr1", 5000, 9000, "+", "G1", "GENE1", 0⟩⟩

/-- Counterexample for C4 as stated: with an exon query that ALWAYS fails, an
`annotate` call that labels one closest gene still returns `Ok`: the exon
failure inside `classify_location` is silently replaced by `vec![]`, so a
failing store query issued during the call does not fail the call. -/
theorem c4_counterexample :
    annotateE tssRegionDefault ⟨"chr1", 5500, 5510⟩ (.ok [])
        (fun _ => .error "boom") (.ok [⟨1, "chr1", 5000, 9000, "+", "G1", "GENE1", 17⟩])
      = .ok ⟨"n/a", "n/a", "", "n/a", [⟨"G1", "GENE1", "promoter,intronic", 17⟩]⟩ := by
  rfl


theorem perm_any {α : Type} {l1 l2 : List α} (h : l1.Perm l2) (f : α → Bool) :
    l1.any f = l2.any f := by
  cases h1 : l1.any f <;> cases h2 : l2.any f
  · rfl
  · rw [List.any_eq_true] at h2
    obtain ⟨x, hx, hfx⟩ := h2
    rw [List.any_eq_false] at h1
    exact absurd hfx (h1 x (h.mem_iff.mpr hx))
  · rw [List.any_eq_true] at h1
    obtain ⟨x, hx, hfx⟩ := h1
    rw [List.any_eq_false] at h2
    exact absurd hfx (h2 x (h.mem_iff.mp hx))
  · rfl

theorem mergeList_absd_attained (hs : List GeneProm) (v : GeneProm) (hv : v.abs_d = i32Abs v.d) :
    ∃ x ∈ v :: hs, (mergeList v hs).abs_d = i32Abs x.d := by
  have hfind := mergeList_d_find hs v hv
  have hmem := List.mem_of_find?_eq_some hfind
  rw [mergeList_absd_eq hs v hv]
  rcases List.mem_cons.mp hmem with h1 | h1
  · exact ⟨v, List.mem_cons_self v hs, by rw [h1]⟩
  · obtain ⟨x, hx, he⟩ := List.mem_map.mp h1
    exact ⟨x, List.mem_cons_of_mem v hx, by rw [he]⟩

/-- The flags and `abs_d` of a per-gene accumulator depend only on the multiset
of hits of that gene, not on their order. -/
theorem withinMap_view_perm (tss : TSSRegion) (loc : Location)
    (rows rows' : List GenomicFeature) (exonq : String → List GenomicFeature)
    (hperm : rows.Perm rows') (id : String) :
    (lookupP (withinMap tss loc rows exonq) id).map
        (fun v => (v.is_promoter, v.is_intronic, v.is_exon, v.abs_d))
      = (lookupP (withinMap tss loc rows' exonq) id).map
        (fun v => (v.is_promoter, v.is_intronic, v.is_exon, v.abs_d)) := by
  rw [lookupP_withinMap, lookupP_withinMap]
  have hp : (rowHits tss loc.mid exonq rows id).Perm (rowHits tss loc.mid exonq rows' id) :=
    (hperm.filter _).map _
  have habs := rowHits_absd tss loc.mid exonq rows id
  have habs' := rowHits_absd tss loc.mid exonq rows' id
  cases hhits : rowHits tss loc.mid exonq rows id with
  | nil =>
    rw [hhits] at hp
    rw [← hp.nil_eq]
  | cons h t =>
    rw [hhits] at hp habs
    cases hhits' : rowHits tss loc.mid exonq rows' id with
    | nil =>
      rw [hhits'] at hp
      exact absurd hp.symm.nil_eq (by simp)
    | cons h' t' =>
      rw [hhits'] at hp habs'
      rw [foldHits_ne_nil, foldHits_ne_nil, Option.map_some', Option.map_some']
      have hv : h.abs_d = i32Abs h.d := habs h (List.mem_cons_self h t)
      have hv' : h'.abs_d = i32Abs h'.d := habs' h' (List.mem_cons_self h' t')
      have hflag1 : (mergeList h t).is_promoter = (mergeList h' t').is_promoter := by
        rw [mergeList_is_promoter, mergeList_is_promoter, ← List.any_cons, ← List.any_cons]
        exact perm_any hp _
      have hflag2 : (mergeList h t).is_intronic = (mergeList h' t').is_intronic := by
        rw [mergeList_is_intronic, mergeList_is_intronic, ← List.any_cons, ← List.any_cons]
        exact perm_any hp _
      have hflag3 : (mergeList h t).is_exon = (mergeList h' t').is_exon := by
        rw [mergeList_is_exon, mergeList_is_exon, ← List.any_cons, ← List.any_cons]
        exact perm_any hp _
      have habsd : (mergeList h t).abs_d = (mergeList h' t').abs_d := by
        obtain ⟨x, hx, hex⟩ := mergeList_absd_attained t h hv
        obtain ⟨x', hx', hex'⟩ := mergeList_absd_attained t' h' hv'
        have le1 : (mergeList h t).abs_d ≤ (mergeList h' t').abs_d := by
          rw [hex']
          exact mergeList_absd_le t h hv x' (hp.mem_iff.mpr hx')
        have le2 : (mergeList h' t').abs_d ≤ (mergeList h t).abs_d := by
          rw [hex]
          exact mergeList_absd_le t' h' hv' x (hp.mem_iff.mp hx)
        exact le_antisymm le1 le2
      rw [hflag1, hflag2, hflag3, habsd]

theorem withinMap_entries_injOn (tss : TSSRegion) (loc : Location)
    (rows : List GenomicFeature) (exonq : String → List GenomicFeature) :
    ∀ x ∈ withinMap tss loc rows exonq, ∀ y ∈ withinMap tss loc rows exonq,
      x.1 = y.1 → x = y := by
  intro x hx y hy hxy
  obtain ⟨kx, vx⟩ := x
  obtain ⟨ky, vy⟩ := y
  have h1 := lookupP_eq_some_of_mem _ (withinMap_nodup tss loc rows exonq) hx
  have h2 := lookupP_eq_some_of_mem _ (withinMap_nodup tss loc rows exonq) hy
  simp only at hxy
  subst hxy
  rw [h1] at h2
  have : vx = vy := by injection h2
  rw [this]

theorem distPairs_nodup (tss : TSSRegion) (loc : Location)
    (rows : List GenomicFeature) (exonq : String → List GenomicFeature) :
    (distPairs (withinMap tss loc rows exonq)).Nodup := by
  rw [distPairs]
  have hnd : (withinMap tss loc rows exonq).Nodup := by
    have h := withinMap_nodup tss loc rows exonq
    rw [keysP] at h
    exact List.Nodup.of_map Prod.fst h
  refine List.Nodup.map_on ?_ hnd
  intro x hx y hy hxy
  refine withinMap_entries_injOn tss loc rows exonq x hx y hy ?_
  exact (Prod.mk.injEq .. ▸ hxy).2

theorem mem_of_lookupP_eq_some {m : List (String × GeneProm)} {k : String} {v : GeneProm} :
    lookupP m k = some v → (k, v) ∈ m := by
  induction m with
  | nil => intro h; cases h
  | cons p rest ih =>
    obtain ⟨k0, v0⟩ := p
    intro h
    by_cases hk : k0 = k
    · subst hk
      rw [lookupP, if_pos rfl] at h
      have : v0 = v := by injection h
      subst this
      exact List.mem_cons_self _ _
    · rw [lookupP, if_neg hk] at h
      exact List.mem_cons_of_mem _ (ih h)

theorem distPairs_mem_iff (tss : TSSRegion) (loc : Location)
    (rows : List GenomicFeature) (exonq : String → List GenomicFeature)
    (a : Int) (k : String) :
    (a, k) ∈ distPairs (withinMap tss loc rows exonq)
      ↔ ∃ v : GeneProm, lookupP (withinMap tss loc rows exonq) k = some v ∧ v.abs_d = a := by
  constructor
  · intro hm
    obtain ⟨e, hem, hei⟩ := List.mem_map.mp hm
    obtain ⟨ke, ve⟩ := e
    obtain ⟨h1, h2⟩ := Prod.mk.injEq .. ▸ hei
    subst h2
    exact ⟨ve, lookupP_eq_some_of_mem _ (withinMap_nodup tss loc rows exonq) hem, h1⟩
  · rintro ⟨v, hl, ha⟩
    have hm := mem_of_lookupP_eq_some hl
    subst ha
    exact List.mem_map_of_mem (fun p => (p.2.abs_d, p.1)) hm



theorem distPairs_perm (tss : TSSRegion) (loc : Location) (rows rows' : List GenomicFeature)
    (exonq : String → List GenomicFeature) (hperm : rows.Perm rows') :
    (distPairs (withinMap tss loc rows exonq)).Perm
      (distPairs (withinMap tss loc rows' exonq)) := by
  refine perm_of_nodup_of_mem_iff (distPairs_nodup tss loc rows exonq)
    (distPairs_nodup tss loc rows' exonq) ?_
  rintro ⟨a, k⟩
  rw [distPairs_mem_iff, distPairs_mem_iff]
  have hview := withinMap_view_perm tss loc rows rows' exonq hperm k
  constructor
  · rintro ⟨v, hl, ha⟩
    rw [hl] at hview
    cases hl' : lookupP (withinMap tss loc rows' exonq) k with
    | none =>
      rw [hl'] at hview
      cases hview
    | some v' =>
      rw [hl'] at hview
      simp only [Option.map_some', Option.some.injEq, Prod.mk.injEq] at hview
      exact ⟨v', rfl, hview.2.2.2 ▸ ha⟩
  · rintro ⟨v, hl, ha⟩
    rw [hl] at hview
    cases hl' : lookupP (withinMap tss loc rows exonq) k with
    | none =>
      rw [hl'] at hview
      cases hview
    | some v' =>
      rw [hl'] at hview
      simp only [Option.map_some', Option.some.injEq, Prod.mk.injEq] at hview
      exact ⟨v', rfl, hview.2.2.2 ▸ ha⟩

theorem withinEntriesSorted_perm_eq (tss : TSSRegion) (loc : Location)
    (rows rows' : List GenomicFeature) (exonq : String → List GenomicFeature)
    (hperm : rows.Perm rows') :
    withinEntriesSorted tss loc rows exonq = withinEntriesSorted tss loc rows' exonq := by
  refine List.eq_of_perm_of_sorted ?_ (List.sorted_insertionSort pairLe _)
    (List.sorted_insertionSort pairLe _)
  exact (List.perm_insertionSort pairLe _).trans
    ((distPairs_perm tss loc rows rows' exonq hperm).trans
      (List.perm_insertionSort pairLe _).symm)

theorem mem_withinIds_iff (tss : TSSRegion) (loc : Location) (rows : List GenomicFeature)
    (exonq : String → List GenomicFeature) (id : String) :
    id ∈ withinIds tss loc rows exonq ↔ id ∈ keysP (withinMap tss loc rows exonq) := by
  rw [withinIds, withinEntriesSorted]
  constructor
  · intro h
    obtain ⟨p, hp, he⟩ := List.mem_map.mp h
    have hp' : p ∈ distPairs (withinMap tss loc rows exonq) :=
      (List.mem_insertionSort pairLe).mp hp
    obtain ⟨e, hem, hee⟩ := List.mem_map.mp hp'
    have h1 : e.1 = id := by
      rw [← he, ← hee]
    rw [← h1]
    exact List.mem_map_of_mem Prod.fst hem
  · intro h
    obtain ⟨e, hem, he1⟩ := List.mem_map.mp h
    have hp : (e.2.abs_d, e.1) ∈ distPairs (withinMap tss loc rows exonq) :=
      List.mem_map_of_mem (fun p => (p.2.abs_d, p.1)) hem
    have hp' : (e.2.abs_d, e.1) ∈ List.insertionSort pairLe
        (distPairs (withinMap tss loc rows exonq)) :=
      (List.mem_insertionSort pairLe).mpr hp
    have := List.mem_map_of_mem Prod.snd hp'
    rw [he1] at this
    exact this

theorem labelOf_promOf_perm (tss : TSSRegion) (loc : Location)
    (rows rows' : List GenomicFeature) (exonq : String → List GenomicFeature)
    (hperm : rows.Perm rows') (id : String)
    (hk : id ∈ keysP (withinMap tss loc rows' exonq)) :
    labelOf (promOf (withinMap tss loc rows exonq) id)
      = labelOf (promOf (withinMap tss loc rows' exonq) id) := by
  obtain ⟨e, hem, he1⟩ := List.mem_map.mp hk
  obtain ⟨k, v'⟩ := e
  simp only at he1
  subst he1
  have hl' : lookupP (withinMap tss loc rows' exonq) k = some v' :=
    lookupP_eq_some_of_mem _ (withinMap_nodup tss loc rows' exonq) hem
  have hview := withinMap_view_perm tss loc rows rows' exonq hperm k
  rw [hl'] at hview
  cases hl : lookupP (withinMap tss loc rows exonq) k with
  | none =>
    rw [hl] at hview
    cases hview
  | some v =>
    rw [hl] at hview
    simp only [Option.map_some', Option.some.injEq, Prod.mk.injEq] at hview
    simp only [promOf, hl, hl', Option.getD_some, labelOf]
    rw [hview.1, hview.2.2.1, hview.2.1]

theorem lookupS_annFold (tss : TSSRegion) (mid : Nat) (exonq : String → List GenomicFeature)
    (rows : List GenomicFeature) : ∀ (st : AnnState) (id : String),
    lookupS (annFold tss mid exonq rows st).id_map id
      = ((rows.filter (fun g => g.gene_id == id)).map (fun g => g.gene_symbol)).foldl
          (fun _ s => some s) (lookupS st.id_map id) := by
  induction rows with
  | nil => intro st id; rfl
  | cons g rest ih =>
    intro st id
    rw [annFold, ih]
    by_cases hg : g.gene_id = id
    · subst hg
      have hf : (List.filter (fun g' => g'.gene_id == g.gene_id) (g :: rest)).map
            (fun g' => g'.gene_symbol)
          = g.gene_symbol :: (List.filter (fun g' => g'.gene_id == g.gene_id) rest).map
            (fun g' => g'.gene_symbol) := by
        simp [List.filter_cons]
      rw [hf, List.foldl_cons]
      congr 1
      exact lookupS_upsertStr_self st.id_map g.gene_id g.gene_symbol
    · have hf : (List.filter (fun g' => g'.gene_id == id) (g :: rest)).map
            (fun g' => g'.gene_symbol)
          = (List.filter (fun g' => g'.gene_id == id) rest).map (fun g' => g'.gene_symbol) := by
        simp [List.filter_cons, hg]
      rw [hf]
      congr 1
      exact lookupS_upsertStr_ne st.id_map g.gene_id id g.gene_symbol (fun hh => hg hh.symm)

theorem foldl_overwrite_eq_some {l : List String} {s : String} (hne : l ≠ [])
    (hall : ∀ x ∈ l, x = s) : ∀ acc : Option String,
    l.foldl (fun _ x => some x) acc = some s := by
  induction l with
  | nil => exact absurd rfl hne
  | cons a t ih =>
    intro acc
    cases t with
    | nil => simp [hall a (List.mem_cons_self a [])]
    | cons b u =>
      rw [List.foldl_cons]
      exact ih (by simp) (fun x hx => hall x (List.mem_cons_of_mem a hx)) _

theorem symOf_consistent (tss : TSSRegion) (loc : Location) (rows : List GenomicFeature)
    (exonq : String → List GenomicFeature) (id : String) (g0 : GenomicFeature)
    (hg0 : g0 ∈ rows) (hid : g0.gene_id = id)
    (hall : ∀ g ∈ rows, g.gene_id = id → g.gene_symbol = g0.gene_symbol) :
    symOf (annotateState tss loc rows exonq).id_map id = g0.gene_symbol := by
  have hfold : lookupS (annotateState tss loc rows exonq).id_map id
      = ((rows.filter (fun g => g.gene_id == id)).map (fun g => g.gene_symbol)).foldl
          (fun _ s => some s) none := by
    rw [annotateState, lookupS_annFold]
    rfl
  have hmem : g0.gene_symbol ∈ (rows.filter (fun g => g.gene_id == id)).map
      (fun g => g.gene_symbol) := by
    refine List.mem_map_of_mem _ ?_
    rw [List.mem_filter]
    exact ⟨hg0, by simp [hid]⟩
  have hne : (rows.filter (fun g => g.gene_id == id)).map (fun g => g.gene_symbol) ≠ [] :=
    List.ne_nil_of_mem hmem
  have hallm : ∀ x ∈ (rows.filter (fun g => g.gene_id == id)).map (fun g => g.gene_symbol),
      x = g0.gene_symbol := by
    intro x hx
    obtain ⟨g, hgf, he⟩ := List.mem_map.mp hx
    rw [List.mem_filter] at hgf
    rw [← he]
    exact hall g hgf.1 (by simpa using hgf.2)
  rw [symOf, hfold, foldl_overwrite_eq_some hne hallm]
  rfl


/-- C8 (amended): the "within" ids and labels lists (and, whenever every row
of a gene carries the same symbol, the symbols list) do not depend on the
order in which the overlap query returns its rows; full byte-identity of the
output is NOT guaranteed — the reported signed distance follows the
first-listed hit among those tying on minimal `|d|` (see the counterexample). -/
theorem c8_order_independence (tss : TSSRegion) (loc : Location)
    (rows rows' : List GenomicFeature) (exonq : String → List GenomicFeature)
    (hperm : rows.Perm rows')
    (hsym : ∀ g ∈ rows, ∀ g' ∈ rows, g.gene_id = g'.gene_id → g.gene_symbol = g'.gene_symbol) :
    (annotateWithin tss loc rows exonq).ids = (annotateWithin tss loc rows' exonq).ids
    ∧ (annotateWithin tss loc rows exonq).labels = (annotateWithin tss loc rows' exonq).labels
    ∧ (annotateWithin tss loc rows exonq).symbols
      = (annotateWithin tss loc rows' exonq).symbols := by
  have hids0 : withinIds tss loc rows exonq = withinIds tss loc rows' exonq := by
    rw [withinIds, withinIds, withinEntriesSorted_perm_eq tss loc rows rows' exonq hperm]
  have hlabels0 : (withinIds tss loc rows exonq).map
        (fun id => labelOf (promOf (withinMap tss loc rows exonq) id))
      = (withinIds tss loc rows' exonq).map
        (fun id => labelOf (promOf (withinMap tss loc rows' exonq) id)) := by
    rw [hids0]
    refine List.map_congr_left ?_
    intro id hid
    exact labelOf_promOf_perm tss loc rows rows' exonq hperm id
      ((mem_withinIds_iff tss loc rows' exonq id).mp hid)
  have hsyms0 : (withinIds tss loc rows exonq).map
        (symOf (annotateState tss loc rows exonq).id_map)
      = (withinIds tss loc rows' exonq).map
        (symOf (annotateState tss loc rows' exonq).id_map) := by
    rw [hids0]
    refine List.map_congr_left ?_
    intro id hid
    have hk' : id ∈ keysP (withinMap tss loc rows' exonq) :=
      (mem_withinIds_iff tss loc rows' exonq id).mp hid
    obtain ⟨g0, hg0', hgid⟩ := (mem_keysP_withinMap tss loc rows' exonq id).mp hk'
    have hg0 : g0 ∈ rows := hperm.mem_iff.mpr hg0'
    rw [symOf_consistent tss loc rows exonq id g0 hg0 hgid
        (fun g hg hgid2 => hsym g hg g0 hg0 (by rw [hgid2, hgid])),
      symOf_consistent tss loc rows' exonq id g0 hg0' hgid
        (fun g hg hgid2 => hsym g (hperm.mem_iff.mpr hg) g0 hg0 (by rw [hgid2, hgid]))]
  rw [annotateWithin_def tss loc rows exonq, annotateWithin_def tss loc rows' exonq]
  by_cases h0 : (withinIds tss loc rows exonq).length = 0
  · have h0' : (withinIds tss loc rows' exonq).length = 0 := by
      rw [← hids0]
      exact h0
    rw [if_pos h0, if_pos h0']
    exact ⟨rfl, hlabels0, rfl⟩
  · have h0' : ¬(withinIds tss loc rows' exonq).length = 0 := by
      rw [← hids0]
      exact h0
    rw [if_neg h0, if_neg h0']
    exact ⟨hids0, hlabels0, hsyms0⟩

/-- Witness for C8: two distinct genes, queried in both row orders, give
identical ids, labels and symbols lists. -/
theorem c8_order_independence_witness :
    ([⟨1, "chr1", 3000, 4000, "+", "GA", "SA", 0⟩, ⟨2, "chr1", 3100, 4500, "-", "GB", "SB", 0⟩]
        : List GenomicFeature).Perm
      [⟨2, "chr1", 3100, 4500, "-", "GB", "SB", 0⟩, ⟨1, "chr1", 3000, 4000, "+", "GA", "SA", 0⟩]
    ∧ ((annotateWithin tssRegionDefault ⟨"chr1", 3200, 3300⟩
          [⟨1, "chr1", 3000, 4000, "+", "GA", "SA", 0⟩, ⟨2, "chr1", 3100, 4500, "-", "GB", "SB", 0⟩]
          (fun _ => [])).ids
        = (annotateWithin tssRegionDefault ⟨"chr1", 3200, 3300⟩
          [⟨2, "chr1", 3100, 4500, "-", "GB", "SB", 0⟩, ⟨1, "chr1", 3000, 4000, "+", "GA", "SA", 0⟩]
          (fun _ => [])).ids
      ∧ (annotateWithin tssRegionDefault ⟨"chr1", 3200, 3300⟩
          [⟨1, "chr1", 3000, 4000, "+", "GA", "SA", 0⟩, ⟨2, "chr1", 3100, 4500, "-", "GB", "SB", 0⟩]
          (fun _ => [])).labels
        = (annotateWithin tssRegionDefault ⟨"chr1", 3200, 3300⟩
          [⟨2, "chr1", 3100, 4500, "-", "GB", "SB", 0⟩, ⟨1, "chr1", 3000, 4000, "+", "GA", "SA", 0⟩]
          (fun _ => [])).labels
      ∧ (annotateWithin tssRegionDefault ⟨"chr1", 3200, 3300⟩
          [⟨1, "chr1", 3000, 4000, "+", "GA", "SA", 0⟩, ⟨2, "chr1", 3100, 4500, "-", "GB", "SB", 0⟩]
          (fun _ => [])).symbols
        = (annotateWithin tssRegionDefault ⟨"chr1", 3200, 3300⟩
          [⟨2, "chr1", 3100, 4500, "-", "GB", "SB", 0⟩, ⟨1, "chr1", 3000, 4000, "+", "GA", "SA", 0⟩]
          (fun _ => [])).symbols) :=
  ⟨by decide,
   c8_order_independence tssRegionDefault ⟨"chr1", 3200, 3300⟩
     [⟨1, "chr1", 3000, 4000, "+", "GA", "SA", 0⟩, ⟨2, "chr1", 3100, 4500, "-", "GB", "SB", 0⟩]
     [⟨2, "chr1", 3100, 4500, "-", "GB", "SB", 0⟩, ⟨1, "chr1", 3000, 4000, "+", "GA", "SA", 0⟩]
     (fun _ => []) (by decide) (by decide)⟩

/-- Counterexample for C8 as stated: the same multiset of overlap rows, in two
orders, is NOT byte-identical output: gene `"G"` has two hits with `|d| = 10`
of opposite signs, the kept signed distance is the first-seen one, so
`tss_dists` is `"10"` in one order and `"-10"` in the other. -/
theorem c8_counterexample :
    ([⟨1, "chr1", 1260, 3000, "+", "G", "S", 0⟩, ⟨2, "chr1", 1240, 3000, "+", "G", "S", 0⟩]
        : List GenomicFeature).Perm
      [⟨2, "chr1", 1240, 3000, "+", "G", "S", 0⟩, ⟨1, "chr1", 1260, 3000, "+", "G", "S", 0⟩]
    ∧ (annotateWithin tssRegionDefault ⟨"chr1", 1200, 1300⟩
        [⟨1, "chr1", 1260, 3000, "+", "G", "S", 0⟩, ⟨2, "chr1", 1240, 3000, "+", "G", "S", 0⟩]
        (fun _ => [])).dists = ["10"]
    ∧ (annotateWithin tssRegionDefault ⟨"chr1", 1200, 1300⟩
        [⟨2, "chr1", 1240, 3000, "+", "G", "S", 0⟩, ⟨1, "chr1", 1260, 3000, "+", "G", "S", 0⟩]
        (fun _ => [])).dists = ["-10"]
    ∧ annotateWithin tssRegionDefault ⟨"chr1", 1200, 1300⟩
        [⟨1, "chr1", 1260, 3000, "+", "G", "S", 0⟩, ⟨2, "chr1", 1240, 3000, "+", "G", "S", 0⟩]
        (fun _ => [])
      ≠ annotateWithin tssRegionDefault ⟨"chr1", 1200, 1300⟩
        [⟨2, "chr1", 1240, 3000, "+", "G", "S", 0⟩, ⟨1, "chr1", 1260, 3000, "+", "G", "S", 0⟩]
        (fun _ => []) := by
  refine ⟨by decide, by decide, by decide, by decide⟩

end RustGeneAnnotation
